import Mathlib

/-!
Verification of the MVCC commitment-ordering coordinator in `src/ptypes/mvcc.py`.

The coordinator's object graph (Transaction / Page / PageVersion instances) is
embedded as arenas of records indexed by natural-number identities.  Python
dictionaries become association lists, Python sets become duplicate-free lists,
and Python exceptions (`AttributeError` from a missing status method,
`KeyError` from `set.remove` / `del d[k]`, `AssertionError`, `ProtocolError`)
become an explicit error result that carries the state reached at the point of
the raise (Python mutations performed before an exception persist).
Unbounded recursions (`doesSucceed`, `_cascadeAbort`, the
`transit2`/`enter`/`try2Transit` nest) take an explicit fuel argument.
-/

set_option maxHeartbeats 2000000
set_option maxRecDepth 4000

/-- Association-list read, modelling a Python dict lookup `d[k]`. -/
def alGet {α : Type} : List (Nat × α) → Nat → Option α
  | [], _ => none
  | (k, v) :: rest, key => if key = k then some v else alGet rest key

/-- Association-list write, modelling Python dict assignment `d[k] = v`. -/
def alSet {α : Type} : List (Nat × α) → Nat → α → List (Nat × α)
  | [], key, v => [(key, v)]
  | (k, w) :: rest, key, v =>
      if key = k then (key, v) :: rest else (k, w) :: alSet rest key v

/-- Association-list delete, modelling Python `del d[k]`;
`none` models the `KeyError` raised when the key is absent. -/
def alDel {α : Type} : List (Nat × α) → Nat → Option (List (Nat × α))
  | [], _ => none
  | (k, w) :: rest, key =>
      if key = k then some rest
      else (alDel rest key).map fun r => (k, w) :: r

/-- Association-list pop, modelling Python `d.pop(k)`;
`none` models the caught `KeyError` branch. -/
def alPop {α : Type} : List (Nat × α) → Nat → Option (α × List (Nat × α))
  | [], _ => none
  | (k, w) :: rest, key =>
      if key = k then some (w, rest)
      else (alPop rest key).map fun r => (r.1, (k, w) :: r.2)

/-- Python `set.add` on a list-represented set. -/
def addOnce (x : Nat) (l : List Nat) : List Nat := if x ∈ l then l else x :: l

/-- Python `set.remove`; `none` models the `KeyError` on a missing element. -/
def removeSet (x : Nat) (l : List Nat) : Option (List Nat) :=
  if x ∈ l then some (l.erase x) else none

/-- Python `set |= otherSet` (used on the accumulated updated-pages set). -/
def unionL (a b : List Nat) : List Nat := a ++ b.filter (fun x => !(x ∈ a : Bool))

/-- Transaction life-cycle statuses (the nested status classes of
`Transaction` in mvcc.py). -/
inductive Status where
  | Running | Failed | Ready | Prepared | Committed | Aborted
  deriving DecidableEq, Repr

/-- The private meta-state (class `Private`): Running and Failed. -/
def Status.isPrivate : Status → Bool
  | .Running => true
  | .Failed => true
  | _ => false

/-- The public meta-state (class `Public`): Ready, Prepared and Committed. -/
def Status.isPublic : Status → Bool
  | .Ready => true
  | .Prepared => true
  | .Committed => true
  | _ => false

/-- One `Transaction` object: distributed id, status, read set, update set
and the two adjacency sets of the precedence graph. -/
structure Transaction where
  transactionId : Option Nat := none
  status : Status := .Running
  readSet : List (Nat × Nat) := []
  updateSet : List (Nat × Nat) := []
  prevTrxs : List Nat := []
  nextTrxs : List Nat := []
  deriving DecidableEq, Repr

instance : Inhabited Transaction := ⟨{}⟩

/-- One `Page` object: ordinal, per-page version counter and the most recent
public version. -/
structure Page where
  ordinal : Nat := 0
  versionCounter : Nat := 0
  latestVersion : Nat := 0
  deriving DecidableEq, Repr

instance : Inhabited Page := ⟨{}⟩

/-- One `PageVersion` object.  `page = none` models `self.page = None`
performed by `try2Remove` on reclamation. -/
structure PageVersion where
  page : Option Nat := none
  versionNumber : Nat := 0
  writerTrx : Option Nat := none
  readerTrxs : List Nat := []
  prevPageVersion : Option Nat := none
  candidateTrxs : List Nat := []
  supersederTrx : Option Nat := none
  deriving DecidableEq, Repr

instance : Inhabited PageVersion := ⟨{}⟩

/-- The whole coordinator heap: arenas for the three object kinds plus the
process-wide transaction counter and a version-identity counter. -/
structure CoordState where
  trxs : List (Nat × Transaction) := []
  pages : List (Nat × Page) := []
  versions : List (Nat × PageVersion) := []
  trxCounter : Nat := 0
  verCounter : Nat := 0
  deriving DecidableEq, Repr

/-- Errors: Python exception kinds observable from the coordinator. -/
inductive Err where
  | attrErr | protoErr | assertErr | keyErr | fuelErr
  deriving DecidableEq, Repr

/-- Result of a stateful operation: the value or the raised error, in both
cases with the state reached (mutations before a raise persist). -/
inductive Res (α : Type) where
  | ok : α → CoordState → Res α
  | err : Err → CoordState → Res α
  deriving DecidableEq, Repr

/-- Sequencing that propagates a raised error together with its state. -/
def Res.bind {α β : Type} : Res α → (α → CoordState → Res β) → Res β
  | .ok a s, f => f a s
  | .err e s, _ => .err e s

/-- The state carried by a result, whether or not an error was raised. -/
def Res.stateOf {α : Type} : Res α → CoordState
  | .ok _ s => s
  | .err _ s => s

@[simp] theorem Res.bind_ok {α β : Type} (a : α) (s : CoordState)
    (f : α → CoordState → Res β) : (Res.ok a s).bind f = f a s := rfl

@[simp] theorem Res.bind_err {α β : Type} (e : Err) (s : CoordState)
    (f : α → CoordState → Res β) : (Res.err e s).bind f = .err e s := rfl

@[simp] theorem Res.stateOf_ok {α : Type} (a : α) (s : CoordState) :
    (Res.ok a s).stateOf = s := rfl

@[simp] theorem Res.stateOf_err {α : Type} (e : Err) (s : CoordState) :
    (Res.err e s : Res α).stateOf = s := rfl

/-- Run an effectful body over a list, stopping at the first raise
(a `for` loop whose body may raise). -/
def foldRes (f : Nat → CoordState → Res Unit) : List Nat → CoordState → Res Unit
  | [], s => .ok () s
  | x :: rest, s => (f x s).bind fun _ s' => foldRes f rest s'

/-- A `for` loop over keyed pairs. -/
def foldResP (f : Nat × Nat → CoordState → Res Unit) :
    List (Nat × Nat) → CoordState → Res Unit
  | [], s => .ok () s
  | x :: rest, s => (f x s).bind fun _ s' => foldResP f rest s'

/-- A `for` loop threading an accumulator (the shared updated-pages set of
`_cascadeAbort`). -/
def foldResAcc (f : Nat → List Nat → CoordState → Res (List Nat)) :
    List Nat → List Nat → CoordState → Res (List Nat)
  | [], acc, s => .ok acc s
  | x :: rest, acc, s => (f x acc s).bind fun acc' s' => foldResAcc f rest acc' s'

/-- Fetch a transaction record (identities are never deallocated, so a live
id always hits; a junk id yields the inert default record). -/
def getTrx (s : CoordState) (t : Nat) : Transaction := (alGet s.trxs t).getD default

/-- Fetch a page record. -/
def getPage (s : CoordState) (p : Nat) : Page := (alGet s.pages p).getD default

/-- Fetch a page-version record. -/
def getVer (s : CoordState) (v : Nat) : PageVersion := (alGet s.versions v).getD default

/-- Update one transaction record in place. -/
def updT (t : Nat) (f : Transaction → Transaction) (s : CoordState) : CoordState :=
  { s with trxs := alSet s.trxs t (f (getTrx s t)) }

/-- Update one page record in place. -/
def updP (p : Nat) (f : Page → Page) (s : CoordState) : CoordState :=
  { s with pages := alSet s.pages p (f (getPage s p)) }

/-- Update one page-version record in place. -/
def updV (v : Nat) (f : PageVersion → PageVersion) (s : CoordState) : CoordState :=
  { s with versions := alSet s.versions v (f (getVer s v)) }

/-- `trx.status = st` (the assignment performed by `transit2`). -/
def setStatusT (t : Nat) (st : Status) (s : CoordState) : CoordState :=
  updT t (fun tr => { tr with status := st }) s

/-- Current status of a transaction. -/
def statusOf (s : CoordState) (t : Nat) : Status := (getTrx s t).status

/-- `prevTrxs` of a transaction: the incoming precedence edges. -/
def prevOf (s : CoordState) (t : Nat) : List Nat := (getTrx s t).prevTrxs

/-!  ### doesSucceed

`Transaction.doesSucceed` is a DFS over `prevTrxs`; it diverges on a cyclic
graph, so the embedding bounds it by fuel.  `some b` is a completed search
with answer `b`; `none` means the bound was hit. -/

/-- Three-valued or: `some true` dominates, otherwise `none` dominates. -/
def orOB : Option Bool → Option Bool → Option Bool
  | some true, _ => some true
  | _, some true => some true
  | none, _ => none
  | _, none => none
  | some false, some false => some false

/-- `self.doesSucceed(other)`: is there a precedence path from `other`
to `self`? -/
def doesSucceedB (s : CoordState) : Nat → Nat → Nat → Option Bool
  | 0, _, _ => none
  | fuel + 1, self, other =>
      let prevs := prevOf s self
      if other ∈ prevs then some true
      else prevs.foldr (fun p acc => orOB (doesSucceedB s fuel p other) acc)
        (some false)

/-- A single precedence edge: `a` is in `b.prevTrxs`, i.e. `a` precedes `b`. -/
def EdgeP (s : CoordState) (a b : Nat) : Prop := a ∈ prevOf s b

/-- The precedence graph has no cycle. -/
def Acyc (s : CoordState) : Prop := ∀ t, ¬ Relation.TransGen (EdgeP s) t t

/-- Acyclicity of the state a result carries. -/
def AcycR {α : Type} (r : Res α) : Prop := Acyc r.stateOf

theorem orOB_eq_false (x y : Option Bool) (h : orOB x y = some false) :
    x = some false ∧ y = some false := by
  revert h; revert y; revert x; decide

theorem foldr_orOB_false {g : Nat → Option Bool} {l : List Nat}
    (h : l.foldr (fun p acc => orOB (g p) acc) (some false) = some false) :
    ∀ p ∈ l, g p = some false := by
  induction l with
  | nil => intro p hp; cases hp
  | cons x rest ih =>
    intro p hp
    simp only [List.foldr_cons] at h
    obtain ⟨h1, h2⟩ := orOB_eq_false _ _ h
    rcases List.mem_cons.mp hp with hp | hp
    · exact hp ▸ h1
    · exact ih h2 p hp

/-- Soundness of a completed negative search: if `doesSucceedB` answers
`some false` then no precedence path leads from `other` to `self`. -/
theorem doesSucceedB_false_sound (s : CoordState) :
    ∀ fuel self other, doesSucceedB s fuel self other = some false →
      ¬ Relation.TransGen (EdgeP s) other self := by
  intro fuel
  induction fuel with
  | zero => intro self other h; simp [doesSucceedB] at h
  | succ f ih =>
    intro self other h hpath
    simp only [doesSucceedB] at h
    by_cases hmem : other ∈ prevOf s self
    · simp [hmem] at h
    · simp only [hmem, if_false] at h
      rcases (Relation.transGen_iff (EdgeP s) other self).mp hpath with hdir | ⟨c, hoc, hcs⟩
      · exact hmem hdir
      · exact ih c other (foldr_orOB_false h c hcs) hoc

/-- Adding a guarded edge `a → b` (no existing path from `b` to `a`, and
`a ≠ b`) keeps the graph acyclic.  Any cycle in the extended relation would
decompose into old-relation paths `x ⇝ a` and `b ⇝ x`. -/
theorem acyc_addEdge {r : Nat → Nat → Prop} {a b : Nat}
    (hacyc : ∀ t, ¬ Relation.TransGen r t t)
    (hne : a ≠ b) (hnopath : ¬ Relation.TransGen r b a) :
    ∀ t, ¬ Relation.TransGen (fun x y => r x y ∨ (x = a ∧ y = b)) t t := by
  set r' := fun x y => r x y ∨ (x = a ∧ y = b) with hr'
  have decomp : ∀ x y, Relation.TransGen r' x y →
      Relation.TransGen r x y ∨
        (Relation.ReflTransGen r x a ∧ Relation.ReflTransGen r b y) := by
    intro x y hxy
    induction hxy with
    | single h =>
      rcases h with h | ⟨rfl, rfl⟩
      · exact Or.inl (Relation.TransGen.single h)
      · exact Or.inr ⟨Relation.ReflTransGen.refl, Relation.ReflTransGen.refl⟩
    | tail hxy hyz ih =>
      rename_i y' z
      rcases hyz with hyz | ⟨rfl, rfl⟩
      · rcases ih with ih | ⟨ih1, ih2⟩
        · exact Or.inl (ih.tail hyz)
        · exact Or.inr ⟨ih1, ih2.tail hyz⟩
      · rcases ih with ih | ⟨ih1, _⟩
        · exact Or.inr ⟨ih.to_reflTransGen, Relation.ReflTransGen.refl⟩
        · exact Or.inr ⟨ih1, Relation.ReflTransGen.refl⟩
  intro t ht
  rcases decomp t t ht with h | ⟨h1, h2⟩
  · exact hacyc t h
  · have hba : Relation.ReflTransGen r b a := h2.trans h1
    rcases Relation.reflTransGen_iff_eq_or_transGen.mp hba with h | h
    · exact hne h
    · exact hnopath h

/-! ### Lemmas about the state primitives -/

theorem alGet_alSet {α : Type} (l : List (Nat × α)) (k k' : Nat) (v : α) :
    alGet (alSet l k v) k' = if k' = k then some v else alGet l k' := by
  induction l with
  | nil => simp [alGet, alSet]
  | cons hd tl ih =>
    obtain ⟨k0, w⟩ := hd
    by_cases hk : k = k0
    · subst hk
      by_cases h1 : k' = k
      · simp [alSet, alGet, h1]
      · simp [alSet, alGet, h1]
    · by_cases h1 : k' = k0
      · subst h1
        have hne : ¬ k' = k := fun h => hk h.symm
        simp [alSet, hk, alGet, hne]
      · simp [alSet, hk, alGet, h1, ih]

theorem getTrx_updT (t : Nat) (f : Transaction → Transaction) (s : CoordState)
    (x : Nat) :
    getTrx (updT t f s) x = if x = t then f (getTrx s t) else getTrx s x := by
  simp only [getTrx, updT, alGet_alSet]
  split <;> rfl

@[simp] theorem getVer_updT (t : Nat) (f : Transaction → Transaction)
    (s : CoordState) (v : Nat) : getVer (updT t f s) v = getVer s v := rfl

@[simp] theorem getPage_updT (t : Nat) (f : Transaction → Transaction)
    (s : CoordState) (p : Nat) : getPage (updT t f s) p = getPage s p := rfl

@[simp] theorem getTrx_updV (v : Nat) (f : PageVersion → PageVersion)
    (s : CoordState) (x : Nat) : getTrx (updV v f s) x = getTrx s x := rfl

@[simp] theorem getPage_updV (v : Nat) (f : PageVersion → PageVersion)
    (s : CoordState) (p : Nat) : getPage (updV v f s) p = getPage s p := rfl

@[simp] theorem getTrx_updP (p : Nat) (f : Page → Page)
    (s : CoordState) (x : Nat) : getTrx (updP p f s) x = getTrx s x := rfl

@[simp] theorem getVer_updP (p : Nat) (f : Page → Page)
    (s : CoordState) (v : Nat) : getVer (updP p f s) v = getVer s v := rfl

theorem getVer_updV (v : Nat) (f : PageVersion → PageVersion) (s : CoordState)
    (x : Nat) :
    getVer (updV v f s) x = if x = v then f (getVer s v) else getVer s x := by
  simp only [getVer, updV, alGet_alSet]
  split <;> rfl

theorem getPage_updP (p : Nat) (f : Page → Page) (s : CoordState) (x : Nat) :
    getPage (updP p f s) x = if x = p then f (getPage s p) else getPage s x := by
  simp only [getPage, updP, alGet_alSet]
  split <;> rfl

theorem prevOf_updT_keep (t : Nat) (f : Transaction → Transaction)
    (hf : ∀ tr, (f tr).prevTrxs = tr.prevTrxs) (s : CoordState) (x : Nat) :
    prevOf (updT t f s) x = prevOf s x := by
  simp only [prevOf, getTrx_updT]
  split
  · next h => rw [hf]; subst h; rfl
  · rfl

@[simp] theorem prevOf_updV (v : Nat) (f : PageVersion → PageVersion)
    (s : CoordState) (x : Nat) : prevOf (updV v f s) x = prevOf s x := rfl

@[simp] theorem prevOf_updP (p : Nat) (f : Page → Page)
    (s : CoordState) (x : Nat) : prevOf (updP p f s) x = prevOf s x := rfl

theorem acyc_of_prevOf_sub {s s' : CoordState}
    (h : ∀ x a, a ∈ prevOf s' x → a ∈ prevOf s x) (hs : Acyc s) : Acyc s' := by
  intro t ht
  exact hs t (Relation.TransGen.mono (fun a b hab => h b a hab) ht)

theorem acyc_of_prevOf_eq {s s' : CoordState}
    (h : ∀ x, prevOf s' x = prevOf s x) (hs : Acyc s) : Acyc s' :=
  acyc_of_prevOf_sub (fun x a ha => (h x) ▸ ha) hs

theorem mem_addOnce {c x : Nat} {l : List Nat} :
    c ∈ addOnce x l ↔ c = x ∨ c ∈ l := by
  unfold addOnce
  split
  · next h =>
    constructor
    · exact Or.inr
    · rintro (rfl | hc)
      · exact h
      · exact hc
  · simp [List.mem_cons]

theorem AcycR_bind {α β : Type} {r : Res α} {f : α → CoordState → Res β}
    (hr : AcycR r) (hf : ∀ a s, Acyc s → AcycR (f a s)) : AcycR (r.bind f) := by
  cases r with
  | ok a s => exact hf a s hr
  | err e s => exact hr

/-! ### The precedence-edge writer -/

/-- `Transaction._precedes(self=a, other=b)`: assert that no cycle would
form (`other is not self` and `not self.doesSucceed(other)`), then insert
the edge `a → b` into both adjacency sets. -/
def precedesOp (fuel : Nat) (a b : Nat) (s : CoordState) : Res Unit :=
  if a = b then .err .assertErr s
  else
    match doesSucceedB s fuel a b with
    | none => .err .fuelErr s
    | some true => .err .assertErr s
    | some false =>
        .ok () (updT b (fun tr => { tr with prevTrxs := addOnce a tr.prevTrxs })
          (updT a (fun tr => { tr with nextTrxs := addOnce b tr.nextTrxs }) s))

theorem acyc_addEdgeState (a b : Nat) (s : CoordState) (hs : Acyc s)
    (hab : a ≠ b) (hnopath : ¬ Relation.TransGen (EdgeP s) b a) :
    Acyc (updT b (fun tr => { tr with prevTrxs := addOnce a tr.prevTrxs })
      (updT a (fun tr => { tr with nextTrxs := addOnce b tr.nextTrxs }) s)) := by
  have hprev1 : ∀ x,
      prevOf (updT a (fun tr => { tr with nextTrxs := addOnce b tr.nextTrxs }) s) x
        = prevOf s x :=
    fun x => prevOf_updT_keep a
      (fun tr => { tr with nextTrxs := addOnce b tr.nextTrxs }) (fun tr => rfl) s x
  have key : ∀ x y,
      EdgeP (updT b (fun tr => { tr with prevTrxs := addOnce a tr.prevTrxs })
        (updT a (fun tr => { tr with nextTrxs := addOnce b tr.nextTrxs }) s)) x y →
      EdgeP s x y ∨ (x = a ∧ y = b) := by
    intro x y hxy
    unfold EdgeP at hxy
    rw [prevOf, getTrx_updT] at hxy
    by_cases hyb : y = b
    · subst hyb
      rw [if_pos rfl] at hxy
      rcases mem_addOnce.mp hxy with rfl | hmem
      · exact Or.inr ⟨rfl, rfl⟩
      · refine Or.inl ?_
        unfold EdgeP
        rw [← hprev1]
        exact hmem
    · rw [if_neg hyb] at hxy
      refine Or.inl ?_
      unfold EdgeP
      rw [← hprev1]
      exact hxy
  intro t ht
  exact acyc_addEdge hs hab hnopath t (Relation.TransGen.mono key ht)

theorem acyc_precedesOp (fuel a b : Nat) (s : CoordState) (hs : Acyc s) :
    AcycR (precedesOp fuel a b s) := by
  unfold precedesOp
  split
  · exact hs
  · next hab =>
    cases hds : doesSucceedB s fuel a b with
    | none => exact hs
    | some bv =>
      cases bv with
      | true => exact hs
      | false =>
        simp only [AcycR, Res.stateOf_ok]
        exact acyc_addEdgeState a b s hs hab (doesSucceedB_false_sound s fuel a b hds)

/-! ### Access resolution (`Page._selectPageVersion` / `Page.resolveAccess`) -/

/-- `Page._selectPageVersion`: walk the previous-version chain from the
latest public version while the version's writer succeeds `t`.  A null
writer gives `AttributeError` (Python calls `.doesSucceed` on `None`);
a null previous version fires the in-code assertion. -/
def selectPV (s : CoordState) (t : Nat) (dsFuel : Nat) : Nat → Nat → Except Err Nat
  | 0, _ => .error .fuelErr
  | fuel + 1, v =>
      match (getVer s v).writerTrx with
      | none => .error .attrErr
      | some w =>
          match doesSucceedB s dsFuel w t with
          | none => .error .fuelErr
          | some false => .ok v
          | some true =>
              match (getVer s v).prevPageVersion with
              | none => .error .assertErr
              | some pv => selectPV s t dsFuel fuel pv

/-- `Page.resolveAccess`: select a version, register the reader, record the
writer-precedes-accessor edge and check the public-superseder assertion. -/
def resolveAccess (fuel : Nat) (p : Nat) (t : Nat) (s : CoordState) : Res Nat :=
  match selectPV s t fuel fuel (getPage s p).latestVersion with
  | .error e => .err e s
  | .ok v =>
      let s1 := updV v (fun ver => { ver with readerTrxs := addOnce t ver.readerTrxs }) s
      match (getVer s1 v).writerTrx with
      | none => .err .attrErr s1
      | some w =>
          (precedesOp fuel w t s1).bind fun _ s2 =>
            match (getVer s2 v).supersederTrx with
            | none => .ok v s2
            | some sup =>
                if (statusOf s2 sup).isPublic then
                  match doesSucceedB s2 fuel sup t with
                  | none => .err .fuelErr s2
                  | some true => .ok v s2
                  | some false => .err .assertErr s2
                else .ok v s2

/-- `Transaction.Private.readPage`: read-set cache, then update-set cache,
then a fresh access resolution recorded in the read set. -/
def readPage (fuel : Nat) (t p : Nat) (s : CoordState) : Res Nat :=
  match alGet (getTrx s t).readSet p with
  | some v => .ok v s
  | none =>
      match alGet (getTrx s t).updateSet p with
      | some v => .ok v s
      | none =>
          (resolveAccess fuel p t s).bind fun v s' =>
            .ok v (updT t (fun tr => { tr with readSet := alSet tr.readSet p v }) s')

/-- `PageVersion.__init__`: allocate the record, take the page's next
version number and register the new version in the writer's update set. -/
def newPageVersion (w p : Nat) (prev : Option Nat) (s : CoordState) :
    Nat × CoordState :=
  let vid := s.verCounter
  let vn := (getPage s p).versionCounter
  let s1 := updP p (fun pg => { pg with versionCounter := vn + 1 }) s
  let nv : PageVersion :=
    { page := some p, versionNumber := vn, writerTrx := some w,
      readerTrxs := [], prevPageVersion := prev,
      candidateTrxs := [], supersederTrx := none }
  let s2 := { s1 with verCounter := vid + 1, versions := alSet s1.versions vid nv }
  (vid, updT w (fun tr => { tr with updateSet := alSet tr.updateSet p vid }) s2)

/-- Result of `updatePage`: the mainline path returns the Python tuple
`(newPageVersion, initPageVersion)` while the cached path returns the
already-present superseding version alone (the source's dynamic typing). -/
inductive UpdRes where
  | pair (newV initV : Nat)
  | single (v : Nat)
  deriving DecidableEq, Repr

/-- `Transaction.Private.updatePage`. -/
def updatePage (fuel : Nat) (t p : Nat) (s : CoordState) : Res UpdRes :=
  match alGet (getTrx s t).updateSet p with
  | some v => .ok (.single v) s
  | none =>
      let initRes : Res Nat :=
        match alPop (getTrx s t).readSet p with
        | some ivrs => .ok ivrs.1 (updT t (fun tr => { tr with readSet := ivrs.2 }) s)
        | none => resolveAccess fuel p t s
      initRes.bind fun iv s1 =>
        let s2 := updV iv
          (fun ver => { ver with candidateTrxs := addOnce t ver.candidateTrxs }) s1
        let r := newPageVersion t p (some iv) s2
        .ok (.pair r.1 iv) r.2

/-- `PageVersion.try2Remove`: reclaim the version when the writer is gone,
no reader remains and nothing supersedes it. -/
def try2RemoveV (v : Nat) (s : CoordState) : CoordState :=
  let ver := getVer s v
  if ver.writerTrx = none ∧ ver.readerTrxs = [] ∧ ver.supersederTrx = none then
    updV v (fun w => { w with page := none }) s
  else s

/-- One step of `Transaction.Private.end`: purge a read-set entry whose
version has lost its writer (committed and collected). -/
def purgeStep (t : Nat) (pv : Nat × Nat) (s : CoordState) : Res Unit :=
  if (getVer s pv.2).writerTrx = none then
    match alDel (getTrx s t).readSet pv.1 with
    | none => .err .keyErr s
    | some rs' =>
        let s1 := updT t (fun tr => { tr with readSet := rs' }) s
        match removeSet t (getVer s1 pv.2).readerTrxs with
        | none => .err .keyErr s1
        | some rd =>
            .ok () (try2RemoveV pv.2
              (updV pv.2 (fun ver => { ver with readerTrxs := rd }) s1))
  else .ok () s

/-- `Transaction.Private.end` (iterates over a snapshot of the read set). -/
def privateEnd (t : Nat) (s : CoordState) : Res Unit :=
  foldResP (purgeStep t) (getTrx s t).readSet s

/-! ### Pure cleanup helpers (no recursion into the state machine) -/

/-- One step of `Aborted.enter`: give the superseded version back (reader
re-registration, superseder reset) and roll back the page's latest
version.  Python dereferences `prevPageVersion` unconditionally. -/
def abortedEnterStep (t : Nat) (pv : Nat × Nat) (s : CoordState) : Res Unit :=
  match (getVer s pv.2).prevPageVersion with
  | none => .err .attrErr s
  | some prev =>
      let s1 :=
        if (getVer s prev).supersederTrx = some t then
          updV prev
            (fun v => { v with supersederTrx := none, readerTrxs := addOnce t v.readerTrxs })
            s
        else s
      if (getPage s1 pv.1).latestVersion = pv.2 then
        .ok () (updP pv.1 (fun pg => { pg with latestVersion := prev }) s1)
      else .ok () s1

/-- Update-set step of the `Aborted.try2Transit` removal: orphan the
version, try to reclaim it, deregister `t` from the superseded one. -/
def abortedCleanupUpd (t : Nat) (pv : Nat × Nat) (s : CoordState) : Res Unit :=
  let s1 := try2RemoveV pv.2 (updV pv.2 (fun v => { v with writerTrx := none }) s)
  match (getVer s1 pv.2).prevPageVersion with
  | none => .err .attrErr s1
  | some prev =>
      match removeSet t (getVer s1 prev).readerTrxs with
      | none => .err .keyErr s1
      | some rd =>
          .ok () (try2RemoveV prev
            (updV prev (fun v => { v with readerTrxs := rd }) s1))

/-- Read-set step of the `Aborted.try2Transit` removal. -/
def abortedCleanupRead (t : Nat) (pv : Nat × Nat) (s : CoordState) : Res Unit :=
  match removeSet t (getVer s pv.2).readerTrxs with
  | none => .err .keyErr s
  | some rd =>
      .ok () (try2RemoveV pv.2
        (updV pv.2 (fun v => { v with readerTrxs := rd }) s))

/-! ### The transaction state machine

One mutually recursive nest mirroring `transit2`, the per-status `enter`,
`try2Transit`, `fail` and `_cascadeAbort` methods.  Every function burns
one unit of fuel on entry; every recursive call is made at the decremented
fuel, so the nest terminates on any input. -/

mutual

/-- `Transaction.transit2`: set the status, then run its `enter`. -/
def transit2 (fuel : Nat) (t : Nat) (st : Status) (s : CoordState) : Res Unit :=
  match fuel with
  | 0 => .err .fuelErr s
  | f + 1 => enterF f t (setStatusT t st s)

termination_by structural fuel

/-- Per-status `enter`, dispatched on the current status of `t`.
Running/Failed inherit the no-op `Status.enter`; `Prepared.enter` is the
default `voteYes` (assert the transaction is local, then self-commit). -/
def enterF (fuel : Nat) (t : Nat) (s : CoordState) : Res Unit :=
  match fuel with
  | 0 => .err .fuelErr s
  | f + 1 =>
    match statusOf s t with
    | .Running => .ok () s
    | .Failed => .ok () s
    | .Ready =>
        (foldResP (readyEntry f t) (getTrx s t).updateSet s).bind fun _ s1 =>
          try2TransitF f t s1
    | .Prepared =>
        match (getTrx s t).transactionId with
        | some _ => .err .assertErr s
        | none => transit2 f t .Committed s
    | .Committed => committedEnter f t s
    | .Aborted =>
        (foldResP (abortedEnterStep t) (getTrx s t).updateSet s).bind fun _ s1 =>
          try2TransitF f t s1

termination_by structural fuel

/-- One update-set entry of `Ready.enter`: publish the superseding
version, take over the superseded one, fail the rival candidates and
order the remaining readers before `t`. -/
def readyEntry (fuel : Nat) (t : Nat) (pv : Nat × Nat) (s : CoordState) : Res Unit :=
  match fuel with
  | 0 => .err .fuelErr s
  | f + 1 =>
    let s1 := updP pv.1 (fun pg => { pg with latestVersion := pv.2 }) s
    match (getVer s1 pv.2).prevPageVersion with
    | none => .ok () s1
    | some sup =>
        let s2 := updV sup (fun v => { v with supersederTrx := some t }) s1
        match removeSet t (getVer s2 sup).readerTrxs with
        | none => .err .keyErr s2
        | some rd =>
        let s3 := updV sup (fun v => { v with readerTrxs := rd }) s2
        match removeSet t (getVer s3 sup).candidateTrxs with
        | none => .err .keyErr s3
        | some cd =>
        let s4 := updV sup (fun v => { v with candidateTrxs := cd }) s3
        (foldRes (failS f) cd s4).bind fun _ s5 =>
          let s6 := updV sup (fun v => { v with candidateTrxs := [] }) s5
          foldRes (fun r s => precedesOp f r t s) (getVer s6 sup).readerTrxs s6

termination_by structural fuel

/-- `fail()` through the current status: Running transits to Failed,
Failed ignores the duplicate, Ready cascades, the rest have no handler. -/
def failS (fuel : Nat) (t : Nat) (s : CoordState) : Res Unit :=
  match fuel with
  | 0 => .err .fuelErr s
  | f + 1 =>
    match statusOf s t with
    | .Running => transit2 f t .Failed s
    | .Failed => .ok () s
    | .Ready => (cascadeS f t [] s).bind fun _ s' => .ok () s'
    | _ => .err .attrErr s

termination_by structural fuel

/-- `try2Transit` through the current status.  `Ready` probes whether all
predecessors are Committed or Failed; `Aborted` removes the transaction
from the graph once it has no successor; `Committed`'s probe only
reports; the rest inherit the no-op. -/
def try2TransitF (fuel : Nat) (t : Nat) (s : CoordState) : Res Unit :=
  match fuel with
  | 0 => .err .fuelErr s
  | f + 1 =>
    match statusOf s t with
    | .Ready =>
        if (getTrx s t).prevTrxs.all
            (fun p => statusOf s p = .Committed || statusOf s p = .Failed) then
          transit2 f t .Prepared s
        else .ok () s
    | .Aborted =>
        if (getTrx s t).nextTrxs = [] then
          (foldRes (dropNextAndProbe f t) (getTrx s t).prevTrxs s).bind fun _ s1 =>
          let s2 := updT t (fun tr => { tr with prevTrxs := [] }) s1
          (foldResP (abortedCleanupUpd t) (getTrx s2 t).updateSet s2).bind fun _ s3 =>
          let s4 := updT t (fun tr => { tr with updateSet := [] }) s3
          (foldResP (abortedCleanupRead t) (getTrx s4 t).readSet s4).bind fun _ s5 =>
            .ok () (updT t (fun tr => { tr with readSet := [] }) s5)
        else .ok () s
    | _ => .ok () s

termination_by structural fuel

/-- Drop `t` from a predecessor's successor set and probe the predecessor
(the shared step of `Committed.enter` and `Aborted.try2Transit`). -/
def dropNextAndProbe (fuel : Nat) (t : Nat) (p : Nat) (s : CoordState) : Res Unit :=
  match fuel with
  | 0 => .err .fuelErr s
  | f + 1 =>
    match removeSet t (getTrx s p).nextTrxs with
    | none => .err .keyErr s
    | some nx => try2TransitF f p (updT p (fun tr => { tr with nextTrxs := nx }) s)

termination_by structural fuel

/-- `Committed.enter`: drop incoming edges, collect superseded versions,
then kick the Ready successors. -/
def committedEnter (fuel : Nat) (t : Nat) (s : CoordState) : Res Unit :=
  match fuel with
  | 0 => .err .fuelErr s
  | f + 1 =>
    (foldRes (dropNextAndProbe f t) (getTrx s t).prevTrxs s).bind fun _ s1 =>
    let s2 := updT t (fun tr => { tr with prevTrxs := [] }) s1
    (foldResP (committedEntry f t) (getTrx s2 t).updateSet s2).bind fun _ s3 =>
    foldRes
      (fun n s => if statusOf s n = .Ready then try2TransitF f n s else .ok () s)
      (getTrx s3 t).nextTrxs s3

termination_by structural fuel

/-- One update-set entry of `Committed.enter`: assert the superseded
version's writer is Committed, detach it, release non-private readers,
unlink from the public chain and try to reclaim. -/
def committedEntry (fuel : Nat) (t : Nat) (pv : Nat × Nat) (s : CoordState) : Res Unit :=
  match fuel with
  | 0 => .err .fuelErr s
  | f + 1 =>
    match (getVer s pv.2).prevPageVersion with
    | none => .ok () s
    | some prev =>
        match (getVer s prev).writerTrx with
        | none => .err .attrErr s
        | some w =>
            if statusOf s w = .Committed then
              match alDel (getTrx s w).updateSet pv.1 with
              | none => .err .keyErr s
              | some us =>
                  let s1 := updT w (fun tr => { tr with updateSet := us }) s
                  (try2TransitF f w s1).bind fun _ s2 =>
                  let s3 := updV prev (fun v => { v with writerTrx := none }) s2
                  (foldRes (committedReaderStep f pv.1 prev)
                      (getVer s3 prev).readerTrxs s3).bind fun _ s4 =>
                  let s5 := updV prev (fun v => { v with supersederTrx := none }) s4
                  let s6 := updV pv.2 (fun v => { v with prevPageVersion := none }) s5
                  .ok () (try2RemoveV prev s6)
            else .err .assertErr s

termination_by structural fuel

/-- One reader of a superseded version in `Committed.enter`: a reader no
longer private drops its read binding and is probed. -/
def committedReaderStep (fuel : Nat) (page prev : Nat) (r : Nat) (s : CoordState) : Res Unit :=
  match fuel with
  | 0 => .err .fuelErr s
  | f + 1 =>
    if (statusOf s r).isPrivate then .ok () s
    else
      match alDel (getTrx s r).readSet page with
      | none => .err .keyErr s
      | some rs =>
          let s1 := updT r (fun tr => { tr with readSet := rs }) s
          match removeSet r (getVer s1 prev).readerTrxs with
          | none => .err .keyErr s1
          | some rd =>
              try2TransitF f r (updV prev (fun v => { v with readerTrxs := rd }) s1)

termination_by structural fuel

/-- `_cascadeAbort` through the current status, threading the shared
updated-pages set of the recursion. -/
def cascadeS (fuel : Nat) (t : Nat) (pages : List Nat) (s : CoordState) : Res (List Nat) :=
  match fuel with
  | 0 => .err .fuelErr s
  | f + 1 =>
    match statusOf s t with
    | .Running | .Failed =>
        (foldRes (fun p s => (readPage f t p s).bind fun _ s' => .ok () s') pages s).bind
          fun _ s1 =>
        (failS f t s1).bind fun _ s2 => .ok pages s2
    | .Ready | .Prepared =>
        let pages1 := unionL pages ((getTrx s t).updateSet.map (fun e => e.1))
        (foldResAcc (cascadeVer f) ((getTrx s t).updateSet.map (fun e => e.2)) pages1 s).bind
          fun pages2 s1 =>
        (transit2 f t .Aborted s1).bind fun _ s2 => .ok pages2 s2
    | .Committed => .err .assertErr s
    | .Aborted => .ok pages s

termination_by structural fuel

/-- One superseding version during a public `_cascadeAbort`: recurse into
its public superseder, then into every reader. -/
def cascadeVer (fuel : Nat) (v : Nat) (pages : List Nat) (s : CoordState) : Res (List Nat) :=
  match fuel with
  | 0 => .err .fuelErr s
  | f + 1 =>
    let supRes : Res (List Nat) :=
      match (getVer s v).supersederTrx with
      | some sup => cascadeS f sup pages s
      | none => .ok pages s
    supRes.bind fun pages1 s1 =>
      foldResAcc (cascadeS f) (getVer s1 v).readerTrxs pages1 s1

termination_by structural fuel
end

/-! ### `end()` and the public dispatchers -/

/-- The reader-conflict scan inside `Running.end` for one superseded
version's reader set. -/
def readersSucceedScan (s : CoordState) (fuel t : Nat) : List Nat → Option Bool
  | [] => some false
  | r :: rest =>
      match doesSucceedB s fuel r t with
      | none => none
      | some true => some true
      | some false => readersSucceedScan s fuel t rest

/-- The conflict-detection loop of `Running.end` over the update-set
versions: `true` means the transaction must fail (a superseded version
already has a public superseder, or one of its readers succeeds `t`). -/
def runningEndScan (fuel t : Nat) (s : CoordState) : List Nat → Res Bool
  | [] => .ok false s
  | v :: rest =>
      match (getVer s v).prevPageVersion with
      | none => runningEndScan fuel t s rest
      | some prev =>
          match (getVer s prev).supersederTrx with
          | some _ => .ok true s
          | none =>
              match readersSucceedScan s fuel t (getVer s prev).readerTrxs with
              | none => .err .fuelErr s
              | some true => .ok true s
              | some false => runningEndScan fuel t s rest

/-- `Transaction.Failed.end`: purge dead reads, then abort. -/
def failedEnd (fuel t : Nat) (s : CoordState) : Res Status :=
  match fuel with
  | 0 => .err .fuelErr s
  | f + 1 =>
    (privateEnd t s).bind fun _ s1 =>
    (transit2 f t .Aborted s1).bind fun _ s2 => .ok (statusOf s2 t) s2

/-- `Transaction.Running.end`: purge dead reads, detect conflicts, then
either fail-and-abort or go Ready. -/
def runningEnd (fuel t : Nat) (s : CoordState) : Res Status :=
  match fuel with
  | 0 => .err .fuelErr s
  | f + 1 =>
    (privateEnd t s).bind fun _ s1 =>
    (runningEndScan f t s1 ((getTrx s1 t).updateSet.map (fun e => e.2))).bind
      fun bail s2 =>
    if bail then
      (failS f t s2).bind fun _ s3 => failedEnd f t s3
    else
      (transit2 f t .Ready s2).bind fun _ s3 => .ok (statusOf s3 t) s3

/-- `end()` dispatched through the current status; terminal states define
no handler, so Python raises `AttributeError`. -/
def endDispatch (fuel t : Nat) (s : CoordState) : Res Status :=
  match statusOf s t with
  | .Running => runningEnd fuel t s
  | .Failed => failedEnd fuel t s
  | _ => .err .attrErr s

/-- `readPage()` dispatched: only the private meta-state defines it. -/
def readDispatch (fuel t p : Nat) (s : CoordState) : Res Nat :=
  match statusOf s t with
  | .Running => readPage fuel t p s
  | .Failed => readPage fuel t p s
  | _ => .err .attrErr s

/-- `updatePage()` dispatched: only the private meta-state defines it. -/
def updateDispatch (fuel t p : Nat) (s : CoordState) : Res UpdRes :=
  match statusOf s t with
  | .Running => updatePage fuel t p s
  | .Failed => updatePage fuel t p s
  | _ => .err .attrErr s

/-- `commit()`: only `Prepared` defines it; a null distributed id raises
`ProtocolError` before any state change. -/
def commitDispatch (fuel t : Nat) (s : CoordState) : Res Unit :=
  match statusOf s t with
  | .Prepared =>
      match (getTrx s t).transactionId with
      | none => .err .protoErr s
      | some _ => transit2 fuel t .Committed s
  | _ => .err .attrErr s

/-- `abort()`: only `Prepared` defines it (a cascading abort). -/
def abortDispatch (fuel t : Nat) (s : CoordState) : Res Unit :=
  match statusOf s t with
  | .Prepared => (cascadeS fuel t [] s).bind fun _ s' => .ok () s'
  | _ => .err .attrErr s

/-- `Transaction.__init__` plus the trivial entry into Running. -/
def newTrx (gid : Option Nat) (s : CoordState) : Nat × CoordState :=
  let t := s.trxCounter
  let tr : Transaction :=
    { transactionId := gid, status := .Running, readSet := [],
      updateSet := [], prevTrxs := [], nextTrxs := [] }
  (t, { s with trxCounter := t + 1, trxs := alSet s.trxs t tr })

/-- `Page.__init__`: a fresh page whose committed-root-to-be version has
no previous version.  The page's identity is its ordinal. -/
def newPage (t ord : Nat) (s : CoordState) : Nat × CoordState :=
  let pg : Page := { ordinal := ord, versionCounter := 0, latestVersion := 0 }
  let s1 := { s with pages := alSet s.pages ord pg }
  let r := newPageVersion t ord none s1
  (ord, updP ord (fun w => { w with latestVersion := r.1 }) r.2)

/-- `PagePool.__init__`: one bootstrap transaction creates every page,
registers itself as a reader of each root version and ends.  The
`Transaction.atomic` retry loop needs a single iteration here: in the
empty system the bootstrap transaction cannot abort. -/
def poolInit (fuel n : Nat) : CoordState :=
  let r0 := newTrx none {}
  let s1 := (List.range n).foldl (fun s i => (newPage r0.1 i s).2) r0.2
  let s2 := (List.range n).foldl
    (fun s i =>
      let v := (getPage s i).latestVersion
      updT r0.1 (fun tr => { tr with readSet := alSet tr.readSet i v })
        (updV v (fun ver => { ver with readerTrxs := addOnce r0.1 ver.readerTrxs }) s))
    s1
  (endDispatch fuel r0.1 s2).stateOf

/-- The coordinator's externally invocable operations. -/
inductive Op where
  | newT (gid : Option Nat)
  | read (t p : Nat)
  | update (t p : Nat)
  | endT (t : Nat)
  | failT (t : Nat)
  | commitT (t : Nat)
  | abortT (t : Nat)
  deriving DecidableEq, Repr

/-- Execute one operation, keeping the state reached even when the
operation raises. -/
def stepOp (fuel : Nat) (o : Op) (s : CoordState) : CoordState :=
  match o with
  | .newT gid => (newTrx gid s).2
  | .read t p => (readDispatch fuel t p s).stateOf
  | .update t p => (updateDispatch fuel t p s).stateOf
  | .endT t => (endDispatch fuel t s).stateOf
  | .failT t => (failS fuel t s).stateOf
  | .commitT t => (commitDispatch fuel t s).stateOf
  | .abortT t => (abortDispatch fuel t s).stateOf

/-- Execute a sequence of operations. -/
def runOps (fuel : Nat) (ops : List Op) (s : CoordState) : CoordState :=
  ops.foldl (fun s o => stepOp fuel o s) s

/-! ### Acyclicity preservation, part 1: primitives and non-nest functions -/

@[simp] theorem AcycR_ok {α : Type} (a : α) (s : CoordState) :
    AcycR (Res.ok a s) = Acyc s := rfl

@[simp] theorem AcycR_err {α : Type} (e : Err) (s : CoordState) :
    AcycR (Res.err e s : Res α) = Acyc s := rfl

theorem acyc_updT_sub (t : Nat) (f : Transaction → Transaction)
    (hf : ∀ tr, ∀ x, x ∈ (f tr).prevTrxs → x ∈ tr.prevTrxs)
    {s : CoordState} (hs : Acyc s) : Acyc (updT t f s) := by
  apply acyc_of_prevOf_sub _ hs
  intro x a ha
  rw [prevOf, getTrx_updT] at ha
  by_cases hx : x = t
  · subst hx
    rw [if_pos rfl] at ha
    exact hf _ _ ha
  · rw [if_neg hx] at ha
    exact ha

theorem acyc_updT_keep (t : Nat) (f : Transaction → Transaction)
    (hf : ∀ tr, (f tr).prevTrxs = tr.prevTrxs)
    {s : CoordState} (hs : Acyc s) : Acyc (updT t f s) :=
  acyc_updT_sub t f (fun tr x hx => (hf tr) ▸ hx) hs

theorem acyc_updV (v : Nat) (f : PageVersion → PageVersion)
    {s : CoordState} (hs : Acyc s) : Acyc (updV v f s) :=
  acyc_of_prevOf_eq (fun _ => rfl) hs

theorem acyc_updP (p : Nat) (f : Page → Page)
    {s : CoordState} (hs : Acyc s) : Acyc (updP p f s) :=
  acyc_of_prevOf_eq (fun _ => rfl) hs

theorem acyc_setStatusT (t : Nat) (st : Status)
    {s : CoordState} (hs : Acyc s) : Acyc (setStatusT t st s) := by
  unfold setStatusT
  apply acyc_updT_keep
  · intro tr; rfl
  · exact hs

theorem acyc_try2RemoveV (v : Nat) {s : CoordState} (hs : Acyc s) :
    Acyc (try2RemoveV v s) := by
  unfold try2RemoveV
  dsimp only
  split
  · exact acyc_updV _ _ hs
  · exact hs

theorem acyc_foldRes {f : Nat → CoordState → Res Unit}
    (hf : ∀ x s, Acyc s → AcycR (f x s)) :
    ∀ l s, Acyc s → AcycR (foldRes f l s) := by
  intro l
  induction l with
  | nil => intro s hs; exact hs
  | cons x rest ih =>
    intro s hs
    exact AcycR_bind (hf x s hs) (fun _ s' hs' => ih s' hs')

theorem acyc_foldResP {f : Nat × Nat → CoordState → Res Unit}
    (hf : ∀ x s, Acyc s → AcycR (f x s)) :
    ∀ l s, Acyc s → AcycR (foldResP f l s) := by
  intro l
  induction l with
  | nil => intro s hs; exact hs
  | cons x rest ih =>
    intro s hs
    exact AcycR_bind (hf x s hs) (fun _ s' hs' => ih s' hs')

theorem acyc_foldResAcc {f : Nat → List Nat → CoordState → Res (List Nat)}
    (hf : ∀ x acc s, Acyc s → AcycR (f x acc s)) :
    ∀ l acc s, Acyc s → AcycR (foldResAcc f l acc s) := by
  intro l
  induction l with
  | nil => intro acc s hs; exact hs
  | cons x rest ih =>
    intro acc s hs
    exact AcycR_bind (hf x acc s hs) (fun acc' s' hs' => ih acc' s' hs')

theorem acyc_abortedEnterStep (t : Nat) (pv : Nat × Nat) (s : CoordState)
    (hs : Acyc s) : AcycR (abortedEnterStep t pv s) := by
  unfold abortedEnterStep
  dsimp only
  split
  · exact hs
  · split
    · split
      · simp only [AcycR_ok]
        apply acyc_updP
        exact acyc_updV _ _ hs
      · simp only [AcycR_ok]
        exact acyc_updV _ _ hs
    · split
      · simp only [AcycR_ok]
        exact acyc_updP _ _ hs
      · exact hs

theorem acyc_abortedCleanupUpd (t : Nat) (pv : Nat × Nat) (s : CoordState)
    (hs : Acyc s) : AcycR (abortedCleanupUpd t pv s) := by
  unfold abortedCleanupUpd
  dsimp only
  have h1 : Acyc (try2RemoveV pv.2
      (updV pv.2 (fun v => { v with writerTrx := none }) s)) :=
    acyc_try2RemoveV _ (acyc_updV _ _ hs)
  split
  · exact h1
  · split
    · exact h1
    · simp only [AcycR_ok]
      exact acyc_try2RemoveV _ (acyc_updV _ _ h1)

theorem acyc_abortedCleanupRead (t : Nat) (pv : Nat × Nat) (s : CoordState)
    (hs : Acyc s) : AcycR (abortedCleanupRead t pv s) := by
  unfold abortedCleanupRead
  split
  · exact hs
  · simp only [AcycR_ok]
    exact acyc_try2RemoveV _ (acyc_updV _ _ hs)

theorem acyc_purgeStep (t : Nat) (pv : Nat × Nat) (s : CoordState)
    (hs : Acyc s) : AcycR (purgeStep t pv s) := by
  unfold purgeStep
  dsimp only
  split
  · split
    · exact hs
    · rename_i rs' heq
      have h1 : Acyc (updT t (fun tr => { tr with readSet := rs' }) s) := by
        apply acyc_updT_keep
        · intro tr; rfl
        · exact hs
      split
      · exact h1
      · simp only [AcycR_ok]
        exact acyc_try2RemoveV _ (acyc_updV _ _ h1)
  · exact hs

theorem acyc_privateEnd (t : Nat) (s : CoordState) (hs : Acyc s) :
    AcycR (privateEnd t s) :=
  acyc_foldResP (fun pv s hs => acyc_purgeStep t pv s hs) _ s hs

theorem acyc_resolveAccess (fuel p t : Nat) (s : CoordState) (hs : Acyc s) :
    AcycR (resolveAccess fuel p t s) := by
  unfold resolveAccess
  dsimp only
  split
  · exact hs
  · split
    · simp only [AcycR_err]
      exact acyc_updV _ _ hs
    · apply AcycR_bind (acyc_precedesOp _ _ _ _ (acyc_updV _ _ hs))
      intro _ s2 hs2
      split
      · exact hs2
      · split
        · split
          · exact hs2
          · exact hs2
          · exact hs2
        · exact hs2

theorem acyc_readPage (fuel t p : Nat) (s : CoordState) (hs : Acyc s) :
    AcycR (readPage fuel t p s) := by
  unfold readPage
  split
  · exact hs
  · split
    · exact hs
    · apply AcycR_bind (acyc_resolveAccess fuel p t s hs)
      intro v s' hs'
      simp only [AcycR_ok]
      apply acyc_updT_keep
      · intro tr; rfl
      · exact hs'

theorem acyc_newPageVersion (w p : Nat) (prev : Option Nat) (s : CoordState)
    (hs : Acyc s) : Acyc (newPageVersion w p prev s).2 := by
  unfold newPageVersion
  dsimp only
  apply acyc_updT_keep
  · intro tr; rfl
  · exact acyc_of_prevOf_eq (fun _ => rfl) hs

theorem acyc_updatePage (fuel t p : Nat) (s : CoordState) (hs : Acyc s) :
    AcycR (updatePage fuel t p s) := by
  unfold updatePage
  dsimp only
  split
  · exact hs
  · apply AcycR_bind
    · split
      · simp only [AcycR_ok]
        apply acyc_updT_keep
        · intro tr; rfl
        · exact hs
      · exact acyc_resolveAccess fuel p t s hs
    · intro iv s1 hs1
      simp only [AcycR_ok]
      exact acyc_newPageVersion t p (some iv) _ (acyc_updV _ _ hs1)

theorem acyc_runningEndScan (fuel t : Nat) (s : CoordState) (l : List Nat)
    (hs : Acyc s) : AcycR (runningEndScan fuel t s l) := by
  induction l with
  | nil => exact hs
  | cons v rest ih =>
    unfold runningEndScan
    split
    · exact ih
    · split
      · exact hs
      · split
        · exact hs
        · exact hs
        · exact ih

/-! ### Acyclicity preservation, part 2: the state-machine nest

One simultaneous induction on fuel: every function of the nest preserves
acyclicity, because every mutation of `prevTrxs` is either a guarded
`_precedes` insertion or a removal. -/

theorem nestAcyc : ∀ fuel : Nat,
    (∀ t st s, Acyc s → AcycR (transit2 fuel t st s)) ∧
    (∀ t s, Acyc s → AcycR (enterF fuel t s)) ∧
    (∀ t pv s, Acyc s → AcycR (readyEntry fuel t pv s)) ∧
    (∀ t s, Acyc s → AcycR (failS fuel t s)) ∧
    (∀ t s, Acyc s → AcycR (try2TransitF fuel t s)) ∧
    (∀ t p s, Acyc s → AcycR (dropNextAndProbe fuel t p s)) ∧
    (∀ t s, Acyc s → AcycR (committedEnter fuel t s)) ∧
    (∀ t pv s, Acyc s → AcycR (committedEntry fuel t pv s)) ∧
    (∀ pg pr r s, Acyc s → AcycR (committedReaderStep fuel pg pr r s)) ∧
    (∀ t pages s, Acyc s → AcycR (cascadeS fuel t pages s)) ∧
    (∀ v pages s, Acyc s → AcycR (cascadeVer fuel v pages s)) := by
  intro fuel
  induction fuel with
  | zero =>
    refine ⟨?_, ?_, ?_, ?_, ?_, ?_, ?_, ?_, ?_, ?_, ?_⟩
    · intro t st s hs; unfold transit2; exact hs
    · intro t s hs; unfold enterF; exact hs
    · intro t pv s hs; unfold readyEntry; exact hs
    · intro t s hs; unfold failS; exact hs
    · intro t s hs; unfold try2TransitF; exact hs
    · intro t p s hs; unfold dropNextAndProbe; exact hs
    · intro t s hs; unfold committedEnter; exact hs
    · intro t pv s hs; unfold committedEntry; exact hs
    · intro pg pr r s hs; unfold committedReaderStep; exact hs
    · intro t pages s hs; unfold cascadeS; exact hs
    · intro v pages s hs; unfold cascadeVer; exact hs
  | succ f ih =>
    obtain ⟨iht2, ihen, ihre, ihfa, ihtt, ihdp, ihce, ihcen, ihcr, ihca, ihcv⟩ := ih
    refine ⟨?_, ?_, ?_, ?_, ?_, ?_, ?_, ?_, ?_, ?_, ?_⟩
    · -- transit2
      intro t st s hs
      unfold transit2
      exact ihen t _ (acyc_setStatusT t st hs)
    · -- enterF
      intro t s hs
      unfold enterF
      split
      · exact hs
      · exact hs
      · refine AcycR_bind (acyc_foldResP (fun pv s hs => ihre t pv s hs) _ s hs) ?_
        intro _ s1 hs1
        exact ihtt t s1 hs1
      · split
        · exact hs
        · exact iht2 t .Committed s hs
      · exact ihce t s hs
      · refine AcycR_bind
          (acyc_foldResP (fun pv s hs => acyc_abortedEnterStep t pv s hs) _ s hs) ?_
        intro _ s1 hs1
        exact ihtt t s1 hs1
    · -- readyEntry
      intro t pv s hs
      unfold readyEntry
      dsimp only
      split
      · simp only [AcycR_ok]
        exact acyc_updP _ _ hs
      · split
        · simp only [AcycR_err]
          exact acyc_updV _ _ (acyc_updP _ _ hs)
        · split
          · simp only [AcycR_err]
            exact acyc_updV _ _ (acyc_updV _ _ (acyc_updP _ _ hs))
          · refine AcycR_bind (acyc_foldRes (fun c s hs => ihfa c s hs) _ _ ?_) ?_
            · exact acyc_updV _ _ (acyc_updV _ _ (acyc_updV _ _ (acyc_updP _ _ hs)))
            · intro _ s5 hs5
              exact acyc_foldRes (fun r s hs => acyc_precedesOp f r t s hs) _ _
                (acyc_updV _ _ hs5)
    · -- failS
      intro t s hs
      unfold failS
      split
      · exact iht2 t .Failed s hs
      · exact hs
      · refine AcycR_bind (ihca t [] s hs) ?_
        intro _ s' hs'
        exact hs'
      · exact hs
    · -- try2TransitF
      intro t s hs
      unfold try2TransitF
      dsimp only
      split
      · split
        · exact iht2 t .Prepared s hs
        · exact hs
      · split
        · refine AcycR_bind (acyc_foldRes (fun p s hs => ihdp t p s hs) _ s hs) ?_
          intro _ s1 hs1
          have hs2 : Acyc (updT t (fun tr => { tr with prevTrxs := [] }) s1) := by
            apply acyc_updT_sub
            · intro tr x hx
              exact absurd hx (List.not_mem_nil x)
            · exact hs1
          refine AcycR_bind
            (acyc_foldResP (fun pv s hs => acyc_abortedCleanupUpd t pv s hs) _ _ hs2) ?_
          intro _ s3 hs3
          have hs4 : Acyc (updT t (fun tr => { tr with updateSet := [] }) s3) := by
            apply acyc_updT_keep
            · intro tr; rfl
            · exact hs3
          refine AcycR_bind
            (acyc_foldResP (fun pv s hs => acyc_abortedCleanupRead t pv s hs) _ _ hs4) ?_
          intro _ s5 hs5
          simp only [AcycR_ok]
          apply acyc_updT_keep
          · intro tr; rfl
          · exact hs5
        · exact hs
      · exact hs
    · -- dropNextAndProbe
      intro t p s hs
      unfold dropNextAndProbe
      split
      · exact hs
      · refine ihtt p _ ?_
        apply acyc_updT_keep
        · intro tr; rfl
        · exact hs
    · -- committedEnter
      intro t s hs
      unfold committedEnter
      dsimp only
      refine AcycR_bind (acyc_foldRes (fun p s hs => ihdp t p s hs) _ s hs) ?_
      intro _ s1 hs1
      have hs2 : Acyc (updT t (fun tr => { tr with prevTrxs := [] }) s1) := by
        apply acyc_updT_sub
        · intro tr x hx
          exact absurd hx (List.not_mem_nil x)
        · exact hs1
      refine AcycR_bind (acyc_foldResP (fun pv s hs => ihcen t pv s hs) _ _ hs2) ?_
      intro _ s3 hs3
      refine acyc_foldRes (fun n s' hs' => ?_) _ _ hs3
      split
      · exact ihtt n s' hs'
      · exact hs'
    · -- committedEntry
      intro t pv s hs
      unfold committedEntry
      dsimp only
      split
      · exact hs
      · split
        · exact hs
        · split
          · split
            · exact hs
            · refine AcycR_bind (ihtt _ _ ?_) ?_
              · apply acyc_updT_keep
                · intro tr; rfl
                · exact hs
              · intro _ s2 hs2
                refine AcycR_bind
                  (acyc_foldRes (fun r s hs => ihcr _ _ r s hs) _ _ ?_) ?_
                · exact acyc_updV _ _ hs2
                · intro _ s4 hs4
                  simp only [AcycR_ok]
                  exact acyc_try2RemoveV _ (acyc_updV _ _ (acyc_updV _ _ hs4))
          · exact hs
    · -- committedReaderStep
      intro pg pr r s hs
      unfold committedReaderStep
      dsimp only
      split
      · exact hs
      · split
        · exact hs
        · split
          · simp only [AcycR_err]
            apply acyc_updT_keep
            · intro tr; rfl
            · exact hs
          · refine ihtt _ _ ?_
            apply acyc_updV
            apply acyc_updT_keep
            · intro tr; rfl
            · exact hs
    · -- cascadeS
      intro t pages s hs
      unfold cascadeS
      dsimp only
      split
      · refine AcycR_bind (acyc_foldRes ?_ pages s hs) ?_
        · intro p s' hs'
          exact AcycR_bind (acyc_readPage f t p s' hs') (fun _ _ hs2 => hs2)
        · intro _ s1 hs1
          refine AcycR_bind (ihfa t s1 hs1) ?_
          intro _ s2 hs2
          exact hs2
      · refine AcycR_bind (acyc_foldRes ?_ pages s hs) ?_
        · intro p s' hs'
          exact AcycR_bind (acyc_readPage f t p s' hs') (fun _ _ hs2 => hs2)
        · intro _ s1 hs1
          refine AcycR_bind (ihfa t s1 hs1) ?_
          intro _ s2 hs2
          exact hs2
      · refine AcycR_bind (acyc_foldResAcc (fun v acc s hs => ihcv v acc s hs) _ _ s hs) ?_
        intro pg2 s1 hs1
        refine AcycR_bind (iht2 t .Aborted s1 hs1) ?_
        intro _ s2 hs2
        exact hs2
      · refine AcycR_bind (acyc_foldResAcc (fun v acc s hs => ihcv v acc s hs) _ _ s hs) ?_
        intro pg2 s1 hs1
        refine AcycR_bind (iht2 t .Aborted s1 hs1) ?_
        intro _ s2 hs2
        exact hs2
      · exact hs
      · exact hs
    · -- cascadeVer
      intro v pages s hs
      unfold cascadeVer
      dsimp only
      refine AcycR_bind ?_ ?_
      · split
        · exact ihca _ pages s hs
        · exact hs
      · intro pg1 s1 hs1
        exact acyc_foldResAcc (fun x acc s hs => ihca x acc s hs) _ _ _ hs1

/-! ### Acyclicity preservation, part 3: entry points and claim C1 -/

theorem acyc_transit2 (fuel t : Nat) (st : Status) {s : CoordState} (hs : Acyc s) :
    AcycR (transit2 fuel t st s) := (nestAcyc fuel).1 t st s hs

theorem acyc_failS (fuel t : Nat) {s : CoordState} (hs : Acyc s) :
    AcycR (failS fuel t s) := (nestAcyc fuel).2.2.2.1 t s hs

theorem acyc_cascadeS (fuel t : Nat) (pages : List Nat) {s : CoordState} (hs : Acyc s) :
    AcycR (cascadeS fuel t pages s) := (nestAcyc fuel).2.2.2.2.2.2.2.2.2.1 t pages s hs

theorem acyc_failedEnd (fuel t : Nat) {s : CoordState} (hs : Acyc s) :
    AcycR (failedEnd fuel t s) := by
  cases fuel with
  | zero => exact hs
  | succ f =>
    unfold failedEnd
    refine AcycR_bind (acyc_privateEnd t s hs) ?_
    intro _ s1 hs1
    refine AcycR_bind (acyc_transit2 f t .Aborted hs1) ?_
    intro _ s2 hs2
    exact hs2

theorem acyc_runningEnd (fuel t : Nat) {s : CoordState} (hs : Acyc s) :
    AcycR (runningEnd fuel t s) := by
  cases fuel with
  | zero => exact hs
  | succ f =>
    unfold runningEnd
    refine AcycR_bind (acyc_privateEnd t s hs) ?_
    intro _ s1 hs1
    refine AcycR_bind (acyc_runningEndScan f t s1 _ hs1) ?_
    intro bail s2 hs2
    split
    · refine AcycR_bind (acyc_failS f t hs2) ?_
      intro _ s3 hs3
      exact acyc_failedEnd f t hs3
    · refine AcycR_bind (acyc_transit2 f t .Ready hs2) ?_
      intro _ s3 hs3
      exact hs3

theorem acyc_endDispatch (fuel t : Nat) {s : CoordState} (hs : Acyc s) :
    AcycR (endDispatch fuel t s) := by
  unfold endDispatch
  split
  · exact acyc_runningEnd fuel t hs
  · exact acyc_failedEnd fuel t hs
  · exact hs

theorem acyc_readDispatch (fuel t p : Nat) {s : CoordState} (hs : Acyc s) :
    AcycR (readDispatch fuel t p s) := by
  unfold readDispatch
  split
  · exact acyc_readPage fuel t p s hs
  · exact acyc_readPage fuel t p s hs
  · exact hs

theorem acyc_updateDispatch (fuel t p : Nat) {s : CoordState} (hs : Acyc s) :
    AcycR (updateDispatch fuel t p s) := by
  unfold updateDispatch
  split
  · exact acyc_updatePage fuel t p s hs
  · exact acyc_updatePage fuel t p s hs
  · exact hs

theorem acyc_commitDispatch (fuel t : Nat) {s : CoordState} (hs : Acyc s) :
    AcycR (commitDispatch fuel t s) := by
  unfold commitDispatch
  split
  · split
    · exact hs
    · exact acyc_transit2 fuel t .Committed hs
  · exact hs

theorem acyc_abortDispatch (fuel t : Nat) {s : CoordState} (hs : Acyc s) :
    AcycR (abortDispatch fuel t s) := by
  unfold abortDispatch
  split
  · refine AcycR_bind (acyc_cascadeS fuel t [] hs) ?_
    intro _ s' hs'
    exact hs'
  · exact hs

theorem acyc_newTrx (gid : Option Nat) (s : CoordState) (hs : Acyc s) :
    Acyc (newTrx gid s).2 := by
  apply acyc_of_prevOf_sub _ hs
  intro x a ha
  unfold newTrx prevOf getTrx at ha
  dsimp only at ha
  rw [alGet_alSet] at ha
  by_cases hx : x = s.trxCounter
  · rw [if_pos hx] at ha
    exact absurd ha (List.not_mem_nil a)
  · rw [if_neg hx] at ha
    exact ha

theorem acyc_stepOp (fuel : Nat) (o : Op) {s : CoordState} (hs : Acyc s) :
    Acyc (stepOp fuel o s) := by
  cases o with
  | newT gid => exact acyc_newTrx gid s hs
  | read t p => exact acyc_readDispatch fuel t p hs
  | update t p => exact acyc_updateDispatch fuel t p hs
  | endT t => exact acyc_endDispatch fuel t hs
  | failT t => exact acyc_failS fuel t hs
  | commitT t => exact acyc_commitDispatch fuel t hs
  | abortT t => exact acyc_abortDispatch fuel t hs

theorem acyc_runOps (fuel : Nat) (ops : List Op) {s : CoordState} (hs : Acyc s) :
    Acyc (runOps fuel ops s) := by
  induction ops generalizing s with
  | nil => exact hs
  | cons o rest ih => exact ih (acyc_stepOp fuel o hs)

theorem acyc_of_no_edges {s : CoordState} (h : ∀ a b, ¬ EdgeP s a b) : Acyc s := by
  intro t ht
  cases ht with
  | single he => exact h _ _ he
  | tail _ he => exact h _ _ he

theorem acyc_empty : Acyc {} := by
  apply acyc_of_no_edges
  intro a b hab
  exact List.not_mem_nil a hab

theorem acyc_foldl (g : CoordState → Nat → CoordState)
    (hg : ∀ s i, Acyc s → Acyc (g s i)) :
    ∀ (l : List Nat) (s : CoordState), Acyc s → Acyc (List.foldl g s l) := by
  intro l
  induction l with
  | nil => intro s hs; exact hs
  | cons x rest ih => intro s hs; exact ih _ (hg s x hs)

theorem acyc_newPage (t ord : Nat) (s : CoordState) (hs : Acyc s) :
    Acyc (newPage t ord s).2 := by
  unfold newPage
  dsimp only
  apply acyc_updP
  apply acyc_newPageVersion
  exact acyc_of_prevOf_eq (fun _ => rfl) hs

theorem acyc_poolInit (fuel n : Nat) : Acyc (poolInit fuel n) := by
  unfold poolInit
  dsimp only
  refine acyc_endDispatch fuel _ ?_
  refine acyc_foldl _ ?_ _ _ ?_
  · intro s i hs
    apply acyc_updT_keep
    · intro tr; rfl
    · exact acyc_updV _ _ hs
  · refine acyc_foldl _ ?_ _ _ ?_
    · intro s i hs
      exact acyc_newPage _ i s hs
    · exact acyc_newTrx none {} acyc_empty

/-- C1: starting from a fresh page pool, after any sequence of coordinator
operations (`newTransaction`, `read`, `update`, `end`, `fail`, `commit`,
`abort`) the precedence graph over live transactions (the
`prevTrxs`/`nextTrxs` edges) never contains a cycle: every edge insertion
goes through the guarded `_precedes` and every other change only removes
edges, so acyclicity is preserved by each operation, whether it completes
normally or raises. -/
theorem claim1_precedence_acyclic (fuelP fuel n : Nat) (ops : List Op) :
    Acyc (runOps fuel ops (poolInit fuelP n)) :=
  acyc_runOps fuel ops (acyc_poolInit fuelP n)

/-! ### Concrete scenario states used by several claims -/

/-- The one-page pool with its bootstrap transaction committed. -/
def poolState1 : CoordState := poolInit 30 1

/-- A fresh transaction (id 1) on the one-page pool. -/
def c3State : CoordState := runOps 30 [Op.newT none] poolState1

/-- The state after transaction 1 reads page 0. -/
def c3Read : CoordState := stepOp 30 (Op.read 1 0) c3State

/-- The state resolveAccess alone produces for that read. -/
def c3Resolved : CoordState := (resolveAccess 30 0 1 c3State).stateOf

/-- Write-write/fail trace: t1 reads P0, t2 updates P0 and goes Ready
(which adds the edge t1 → t2), then t1 fails locally. -/
def wwState : CoordState :=
  runOps 30 [Op.newT none, Op.read 1 0, Op.newT none, Op.update 2 0,
             Op.endT 2, Op.failT 1] poolState1

/-- The S3 write-write race: t1 and t2 both update P0; t1 ends and, being
local, commits synchronously. -/
def s3State : CoordState :=
  runOps 30 [Op.newT none, Op.update 1 0, Op.newT none, Op.update 2 0,
             Op.endT 1] poolState1

/-- The state after t2's first `end()` (which returns Aborted). -/
def s3Aborted : CoordState := (endDispatch 30 2 s3State).stateOf

/-- A committed reader: transaction 1 reads page 0 and ends. -/
def c7State : CoordState := runOps 30 [Op.newT none, Op.read 1 0, Op.endT 1] poolState1

/-- A distributed transaction parked in Prepared with a null global id
(reachable only under an overridden `voteYes`; used to exercise the
`ProtocolError` branch of `Prepared.commit`). -/
def prepState : CoordState :=
  { trxs := [(0, { transactionId := none, status := .Prepared, readSet := [],
                   updateSet := [], prevTrxs := [], nextTrxs := [] })],
    pages := [], versions := [], trxCounter := 1, verCounter := 0 }

/-! ### Claim C3 -/

/-- C3 counterexample: transaction 1 reads page 0 of the fresh pool.  The
selected version's writer is the Committed bootstrap transaction 0, yet
the code records the precedence edge 0 → 1 anyway — so the claim's
"unless V.writerTrx is Committed, in which case no edge is added" is
false on the code. -/
theorem claim3_counterexample :
    statusOf c3State 0 = .Committed ∧
    (getVer c3State ((getPage c3State 0).latestVersion)).writerTrx = some 0 ∧
    readDispatch 30 1 0 c3State = .ok 0 c3Read ∧
    0 ∈ prevOf c3Read 1 ∧ 1 ∈ (getTrx c3Read 0).nextTrxs := by decide

/-- C3 (amended): when an access resolution succeeds, T is added to the
selected version's readers and the edge `V.writerTrx → T` is recorded
unconditionally through `_precedes` — also when that writer is Committed.
A null writer met by the selection walk is not tolerated: Python calls
`.doesSucceed` on `None` and dies with `AttributeError`. -/
theorem claim3_access_recording (fuel p t : Nat) (s : CoordState) :
    (∀ v s', resolveAccess fuel p t s = .ok v s' →
      t ∈ (getVer s' v).readerTrxs ∧
      ∃ w, (getVer s v).writerTrx = some w ∧ w ∈ prevOf s' t) ∧
    (∀ v0 fl, (getVer s v0).writerTrx = none →
      selectPV s t fuel (fl + 1) v0 = .error .attrErr) := by
  constructor
  · intro v s' hok
    unfold resolveAccess at hok
    revert hok
    split
    · intro hok; cases hok
    · rename_i v1 hsel
      dsimp only
      split
      · intro hok; cases hok
      · rename_i w hw
        unfold precedesOp
        split
        · intro hok; cases hok
        · split
          · intro hok; cases hok
          · intro hok; cases hok
          · rename_i hds
            simp only [Res.bind_ok]
            have hreads : t ∈ (getVer (updT t
                (fun tr => { tr with prevTrxs := addOnce w tr.prevTrxs })
                (updT w (fun tr => { tr with nextTrxs := addOnce t tr.nextTrxs })
                  (updV v1 (fun ver =>
                    { ver with readerTrxs := addOnce t ver.readerTrxs }) s))) v1).readerTrxs := by
              simp only [getVer_updT]
              rw [getVer_updV, if_pos rfl]
              exact mem_addOnce.mpr (Or.inl rfl)
            have hedge : w ∈ prevOf (updT t
                (fun tr => { tr with prevTrxs := addOnce w tr.prevTrxs })
                (updT w (fun tr => { tr with nextTrxs := addOnce t tr.nextTrxs })
                  (updV v1 (fun ver =>
                    { ver with readerTrxs := addOnce t ver.readerTrxs }) s))) t := by
              rw [prevOf, getTrx_updT, if_pos rfl]
              exact mem_addOnce.mpr (Or.inl rfl)
            have hwriter : (getVer s v1).writerTrx = some w := by
              rw [getVer_updV, if_pos rfl] at hw
              exact hw
            split
            · intro hok
              cases hok
              exact ⟨hreads, w, hwriter, hedge⟩
            · split
              · split
                · intro hok; cases hok
                · intro hok
                  cases hok
                  exact ⟨hreads, w, hwriter, hedge⟩
                · intro hok; cases hok
              · intro hok
                cases hok
                exact ⟨hreads, w, hwriter, hedge⟩
  · intro v0 fl hnone
    unfold selectPV
    rw [hnone]

/-- C3 witness: the amended recording theorem instantiated on the
concrete pool read of transaction 1. -/
theorem claim3_witness :
    1 ∈ (getVer c3Resolved 0).readerTrxs ∧
    ∃ w, (getVer c3State 0).writerTrx = some w ∧ w ∈ prevOf c3Resolved 1 :=
  (claim3_access_recording 30 0 1 c3State).1 0 c3Resolved (by decide)

/-! ### Claim C5 -/

/-- C5 counterexample: in `wwState` the `fail()` on t1 has completed, every
transaction in t2's `prevTrxs` is Committed or Failed, yet t2 still sits
in Ready — a predecessor entering Failed does not re-evaluate t2's
Ready→Prepared probe. -/
theorem claim5_counterexample :
    statusOf wwState 2 = .Ready ∧
    prevOf wwState 2 ≠ [] ∧
    (∀ p ∈ prevOf wwState 2,
      statusOf wwState p = .Committed ∨ statusOf wwState p = .Failed) := by decide

/-- C5 (amended): the Ready→Prepared probe fires exactly when every
predecessor is Committed or Failed; it runs on entry to Ready and is
re-run when a predecessor commits (`Committed.enter` kicks Ready
successors), but a predecessor merely entering Failed does not re-run it,
so a transaction can keep sitting in Ready with every predecessor
Committed or Failed. -/
theorem claim5_ready_probe (f t : Nat) (s : CoordState)
    (h : statusOf s t = .Ready) :
    ((getTrx s t).prevTrxs.all
        (fun p => statusOf s p = .Committed || statusOf s p = .Failed) = false →
      try2TransitF (f + 1) t s = .ok () s) ∧
    ((getTrx s t).prevTrxs.all
        (fun p => statusOf s p = .Committed || statusOf s p = .Failed) = true →
      try2TransitF (f + 1) t s = transit2 f t .Prepared s) := by
  constructor <;> intro hall <;> unfold try2TransitF <;> rw [h] <;> simp [hall]

/-- C5 witness: the probe theorem instantiated on `wwState`, where the
guard holds, so the probe would fire the Prepared transition. -/
theorem claim5_witness :
    try2TransitF 11 2 wwState = transit2 10 2 .Prepared wwState :=
  (claim5_ready_probe 10 2 wwState (by decide)).2 (by decide)

/-! ### Claim C6 -/

/-- C6 counterexample: in the S3 race t2's first `end()` returns Aborted,
but a second `end()` does not return Aborted again: the Aborted status
class defines no `end` handler and Python raises `AttributeError`. -/
theorem claim6_counterexample :
    endDispatch 30 2 s3State = .ok .Aborted s3Aborted ∧
    statusOf s3Aborted 2 = .Aborted ∧
    endDispatch 30 2 s3Aborted = .err .attrErr s3Aborted := by decide

/-- C6 (amended): `end()` in a terminal state (Committed or Aborted) is
not a no-op returning the terminal status: the dispatch finds no `end`
handler and raises `AttributeError`, leaving the state unchanged. -/
theorem claim6_terminal_end (fuel t : Nat) (s : CoordState)
    (h : statusOf s t = .Committed ∨ statusOf s t = .Aborted) :
    endDispatch fuel t s = .err .attrErr s := by
  unfold endDispatch
  rcases h with h | h <;> rw [h]

/-- C6 witness: the amended theorem instantiated on t2 after its abort. -/
theorem claim6_witness : endDispatch 30 2 s3Aborted = .err .attrErr s3Aborted :=
  claim6_terminal_end 30 2 s3Aborted (Or.inr (by decide))

/-! ### Claim C7 -/

/-- C7 counterexample: `read` after `end` (transaction 1 is Committed)
raises `AttributeError`, not the `ProtocolError` the claim promises. -/
theorem claim7_counterexample :
    statusOf c7State 1 = .Committed ∧
    readDispatch 30 1 0 c7State = .err .attrErr c7State ∧
    Err.attrErr ≠ Err.protoErr := by decide

/-- C7 (amended): `ProtocolError` is raised only by `commit()` on a
Prepared transaction with a null global id; every other rejected
operation (read after end, commit or abort outside Prepared) dies with
`AttributeError` because the status class has no handler.  In every such
case the state — in particular the status — is unchanged. -/
theorem claim7_errors (fuel t p : Nat) (s : CoordState) :
    ((statusOf s t).isPrivate = false → readDispatch fuel t p s = .err .attrErr s) ∧
    (statusOf s t = .Prepared → (getTrx s t).transactionId = none →
      commitDispatch fuel t s = .err .protoErr s) ∧
    (statusOf s t ≠ .Prepared → commitDispatch fuel t s = .err .attrErr s) ∧
    (statusOf s t ≠ .Prepared → abortDispatch fuel t s = .err .attrErr s) := by
  refine ⟨?_, ?_, ?_, ?_⟩
  · intro h
    unfold readDispatch
    cases hst : statusOf s t
    · rw [hst] at h; exact absurd h (by decide)
    · rw [hst] at h; exact absurd h (by decide)
    · rfl
    · rfl
    · rfl
    · rfl
  · intro h1 h2
    unfold commitDispatch
    rw [h1, h2]
  · intro h
    unfold commitDispatch
    cases hst : statusOf s t
    · rfl
    · rfl
    · rfl
    · exact absurd hst h
    · rfl
    · rfl
  · intro h
    unfold abortDispatch
    cases hst : statusOf s t
    · rfl
    · rfl
    · rfl
    · exact absurd hst h
    · rfl
    · rfl

/-- C7 witness: the error theorem instantiated on the committed reader
(AttributeError branches) and on a Prepared local transaction
(ProtocolError branch). -/
theorem claim7_witness :
    readDispatch 30 1 0 c7State = .err .attrErr c7State ∧
    commitDispatch 30 1 c7State = .err .attrErr c7State ∧
    commitDispatch 5 0 prepState = .err .protoErr prepState :=
  ⟨(claim7_errors 30 1 0 c7State).1 (by decide),
   (claim7_errors 30 1 0 c7State).2.2.1 (by decide),
   (claim7_errors 5 0 0 prepState).2.1 (by decide) (by decide)⟩

/-! ### Claim C9 -/

/-- Transaction 1 fresh on the pool, about to update page 0 twice. -/
def c9State : CoordState := runOps 30 [Op.newT none] poolState1

/-- The state after the first `update(P0)`. -/
def c9After : CoordState := (updateDispatch 30 1 0 c9State).stateOf

/-- C9: the first `update(P0)` returns the pair (new version 1, initial
version 0); the second `update(P0)` by the same Running transaction
returns the bare cached version — a single value, not a pair — although
the module docstring promises that update requests are resolved to a pair
of versions.  This evaluates the code at the failing input. -/
theorem claim9_update_twice_single :
    updateDispatch 30 1 0 c9State = .ok (.pair 1 0) c9After ∧
    updateDispatch 30 1 0 c9After = .ok (.single 1) c9After := by decide

/-! ### Claim C2 -/

/-- Operation sequence refuting the walk-termination guarantee of
`_selectPageVersion`.  Transactions: 1 observes page 2; 2 publishes over
page 1 and stays Ready; 3 reads pages 0 and 1 and is failed; 4 reads
page 0 and later commits; 5 publishes over page 0 and commits once its
predecessors 3 and 4 are settled, detaching the root version of page 0
(its `writerTrx` becomes null) while transaction 6 — which selected that
root by walking past 5's published version — still holds a private
version pointing at it; 6 then publishes that version on page 0 and,
superseding page 2, gains the Running predecessor 1. -/
def c2Ops : List Op :=
  [Op.newT none, Op.newT none, Op.newT none, Op.newT none, Op.newT none, Op.newT none,
   Op.read 1 2, Op.read 6 1, Op.read 3 0, Op.read 4 0,
   Op.update 2 1, Op.endT 2,
   Op.read 3 1,
   Op.failT 3,
   Op.update 5 0, Op.endT 5,
   Op.update 6 0, Op.update 6 2,
   Op.endT 4,
   Op.endT 3,
   Op.endT 6]

/-- The state reached by `c2Ops` from a fresh three-page pool. -/
def c2State : CoordState := runOps 40 c2Ops (poolInit 40 3)

set_option maxRecDepth 100000 in
/-- C2 counterexample: in `c2State` the Running transaction 1 holds no
cached access to page 0, yet its `read` raises `AttributeError` inside
the version-selection walk: page 0's latest version 5 was written by
transaction 6, which succeeds transaction 1, so the walk follows
`prevPageVersion` to version 0 — whose `writerTrx` was set to null when
transaction 5 committed over it.  The walk does not stop at or before a
committed root: it dereferences a null writer
(`pageVersion.writerTrx.doesSucceed`, mvcc.py:774). -/
theorem claim2_counterexample :
    statusOf c2State 1 = .Running ∧
    alGet (getTrx c2State 1).readSet 0 = none ∧
    alGet (getTrx c2State 1).updateSet 0 = none ∧
    (getPage c2State 0).latestVersion = 5 ∧
    (getVer c2State 5).writerTrx = some 6 ∧
    doesSucceedB c2State 40 6 1 = some true ∧
    (getVer c2State 5).prevPageVersion = some 0 ∧
    (getVer c2State 0).writerTrx = none ∧
    readDispatch 40 1 0 c2State = .err .attrErr c2State := by
  decide

/-- The walk of `Page._selectPageVersion` spelled out: starting at the
first index, every skipped version has a non-null writer whose
`doesSucceed t` search completes positively and a non-null previous
version, and the walk ends at the first version whose writer's search
completes negatively. -/
inductive WalkTo (s : CoordState) (t dsf : Nat) : Nat → List Nat → Nat → Prop where
  | stop (v w : Nat) :
      (getVer s v).writerTrx = some w →
      doesSucceedB s dsf w t = some false →
      WalkTo s t dsf v [] v
  | step (v w pv good : Nat) (rest : List Nat) :
      (getVer s v).writerTrx = some w →
      doesSucceedB s dsf w t = some true →
      (getVer s v).prevPageVersion = some pv →
      WalkTo s t dsf pv rest good →
      WalkTo s t dsf v (v :: rest) good

/-- C2 (amended): when the walk completes — every version it passes has
a non-null writer whose `doesSucceed t` search answers, and a non-null
previous version — the selection returns the first version reached from
the start (the page's latest version) by following `prevPageVersion`
links while the version's writer succeeds `t`.  The claim's further
guarantee that the links are never null (that the walk always stops at
or before the committed root) is refuted by `claim2_counterexample`:
after a commit detaches a version still referenced as the previous
version of a later-published one, the walk dereferences its null writer
and raises `AttributeError`. -/
theorem claim2_select_first_version (s : CoordState) (t dsf : Nat)
    (skipped : List Nat) (v0 good fl : Nat)
    (hwalk : WalkTo s t dsf v0 skipped good)
    (hfl : skipped.length < fl) :
    selectPV s t dsf fl v0 = .ok good := by
  induction hwalk generalizing fl with
  | stop v w hw hds =>
    cases fl with
    | zero => exact absurd hfl (by omega)
    | succ f =>
      unfold selectPV
      rw [hw]
      dsimp only
      rw [hds]
  | step v w pv good rest hw hds hprev _ ih =>
    cases fl with
    | zero => exact absurd hfl (by omega)
    | succ f =>
      unfold selectPV
      rw [hw]
      dsimp only
      rw [hds]
      dsimp only
      rw [hprev]
      refine ih f ?_
      simp only [List.length_cons] at hfl
      omega

set_option maxRecDepth 100000 in
/-- C2 witness: in `c2State` the latest version of page 2 is version 6,
written by the Ready transaction 6 which succeeds the Running
transaction 1; the walk for an access by transaction 1 skips version 6
and stops at the committed root version 2 of the page. -/
theorem claim2_witness :
    WalkTo c2State 1 5 6 [6] 2 ∧ selectPV c2State 1 5 3 6 = .ok 2 := by
  have hwalk : WalkTo c2State 1 5 6 [6] 2 :=
    WalkTo.step 6 6 2 2 [] (by decide) (by decide) (by decide)
      (WalkTo.stop 2 0 (by decide) (by decide))
  exact ⟨hwalk, claim2_select_first_version c2State 1 5 [6] 6 2 3 hwalk (by decide)⟩

/-! ### Claim C10 -/

theorem alGet_none_of_alPop_none {α : Type} :
    ∀ (l : List (Nat × α)) (p : Nat), alPop l p = none → alGet l p = none := by
  intro l
  induction l with
  | nil => intro p _; rfl
  | cons hd tl ih =>
    intro p h
    obtain ⟨k, w⟩ := hd
    unfold alPop at h
    unfold alGet
    by_cases hk : p = k
    · rw [if_pos hk] at h
      cases h
    · rw [if_neg hk] at h ⊢
      apply ih
      cases hpop : alPop tl p with
      | none => rfl
      | some r => rw [hpop] at h; cases h

theorem alGet_none_of_not_mem {α : Type} :
    ∀ (l : List (Nat × α)) (p : Nat), p ∉ l.map Prod.fst → alGet l p = none := by
  intro l
  induction l with
  | nil => intro p _; rfl
  | cons hd tl ih =>
    intro p h
    obtain ⟨k, w⟩ := hd
    unfold alGet
    simp only [List.map_cons, List.mem_cons] at h
    push_neg at h
    rw [if_neg h.1]
    exact ih p h.2

theorem alGet_alPop_self {α : Type} :
    ∀ (l : List (Nat × α)) (p : Nat) (w : α) (r : List (Nat × α)),
      (l.map Prod.fst).Nodup → alPop l p = some (w, r) → alGet r p = none := by
  intro l
  induction l with
  | nil => intro p w r _ h; cases h
  | cons hd tl ih =>
    intro p w r hnd h
    obtain ⟨k, v⟩ := hd
    unfold alPop at h
    simp only [List.map_cons, List.nodup_cons] at hnd
    by_cases hk : p = k
    · rw [if_pos hk] at h
      cases h
      apply alGet_none_of_not_mem
      rw [hk]
      exact hnd.1
    · rw [if_neg hk] at h
      cases hpop : alPop tl p with
      | none => rw [hpop] at h; cases h
      | some r2 =>
        rw [hpop] at h
        obtain ⟨r2a, r2b⟩ := r2
        cases h
        unfold alGet
        rw [if_neg hk]
        exact ih p r2a r2b hnd.2 hpop

/-- The successful shape of `resolveAccess`: the result state is the
source state with the reader registration on the selected version and a
fresh precedence edge from that version's (non-null) writer. -/
theorem resolveAccess_ok (fuel p t : Nat) (s : CoordState) (v : Nat) (s' : CoordState)
    (h : resolveAccess fuel p t s = .ok v s') :
    ∃ w, (getVer s v).writerTrx = some w ∧ w ≠ t ∧
      s' = updT t (fun tr => { tr with prevTrxs := addOnce w tr.prevTrxs })
             (updT w (fun tr => { tr with nextTrxs := addOnce t tr.nextTrxs })
               (updV v (fun ver => { ver with readerTrxs := addOnce t ver.readerTrxs }) s)) := by
  unfold resolveAccess at h
  revert h
  split
  · intro h; cases h
  · rename_i v1 hsel
    dsimp only
    split
    · intro h; cases h
    · rename_i w hw
      unfold precedesOp
      split
      · intro h; cases h
      · rename_i hwt
        split
        · intro h; cases h
        · intro h; cases h
        · simp only [Res.bind_ok]
          have hwriter : (getVer s v1).writerTrx = some w := by
            rw [getVer_updV, if_pos rfl] at hw
            exact hw
          split
          · intro h
            cases h
            exact ⟨w, hwriter, hwt, rfl⟩
          · split
            · split
              · intro h; cases h
              · intro h
                cases h
                exact ⟨w, hwriter, hwt, rfl⟩
              · intro h; cases h
            · intro h
              cases h
              exact ⟨w, hwriter, hwt, rfl⟩

theorem getTrx_updT_self (t : Nat) (f : Transaction → Transaction) (s : CoordState) :
    getTrx (updT t f s) t = f (getTrx s t) := by
  rw [getTrx_updT, if_pos rfl]

theorem getTrx_bump (s : CoordState) (vc : Nat) (vs : List (Nat × PageVersion))
    (x : Nat) : getTrx { s with verCounter := vc, versions := vs } x = getTrx s x := rfl

/-- How `PageVersion.__init__` rewrites the writer's transaction record:
only the writer's update set gains the fresh version id. -/
theorem newPageVersion_trx (w p : Nat) (prev : Option Nat) (sb : CoordState) (x : Nat) :
    getTrx (newPageVersion w p prev sb).2 x =
      if x = w then
        { getTrx sb x with updateSet := alSet (getTrx sb x).updateSet p sb.verCounter }
      else getTrx sb x := by
  unfold newPageVersion
  dsimp only
  rw [getTrx_updT]
  split
  · rename_i hx
    subst hx
    rw [getTrx_bump, getTrx_updP]
  · rw [getTrx_bump, getTrx_updP]

theorem newPageVersion_fst (w p : Nat) (prev : Option Nat) (sb : CoordState) :
    (newPageVersion w p prev sb).1 = sb.verCounter := rfl

/-- The new-version half of an `updatePage` result. -/
def newVerOf : UpdRes → Nat
  | .pair n _ => n
  | .single v => v

/-- C10: after a private `update(P)` succeeds, a subsequent `read(P)` by
the same transaction returns the private superseding version — the
updateSet entry for P — rather than a public version, and the repeated
read mutates nothing: no reader registration, no precedence edge, the
state is returned unchanged. -/
theorem claim10_read_own_update (fuel fl t p : Nat) (s : CoordState)
    (hnodup : ((getTrx s t).readSet.map Prod.fst).Nodup)
    (hdisj : alGet (getTrx s t).readSet p = none ∨ alGet (getTrx s t).updateSet p = none)
    (r : UpdRes) (s' : CoordState)
    (h : updatePage fuel t p s = .ok r s') :
    alGet (getTrx s' t).updateSet p = some (newVerOf r) ∧
    readPage fl t p s' = .ok (newVerOf r) s' := by
  unfold updatePage at h
  revert h
  split
  · rename_i v hv
    intro h
    cases h
    have hrs : alGet (getTrx s t).readSet p = none := by
      rcases hdisj with hd | hd
      · exact hd
      · rw [hv] at hd; cases hd
    constructor
    · exact hv
    · unfold readPage
      rw [hrs]
      dsimp only
      rw [hv]
      rfl
  · rename_i hnone
    dsimp only
    split
    · rename_i ivrs hpop
      intro h
      simp only [Res.bind_ok] at h
      cases h
      obtain ⟨iv, rs'⟩ := ivrs
      have hrs : alGet rs' p = none := alGet_alPop_self _ p iv rs' hnodup hpop
      have hread : alGet (getTrx ((newPageVersion t p (some iv)
          (updV iv (fun ver => { ver with candidateTrxs := addOnce t ver.candidateTrxs })
            (updT t (fun tr => { tr with readSet := rs' }) s))).2) t).readSet p = none := by
        rw [newPageVersion_trx, if_pos rfl]
        dsimp only
        rw [getTrx_updV, getTrx_updT_self]
        exact hrs
      have hupd : ∀ q, alGet (getTrx ((newPageVersion t p (some iv) q).2) t).updateSet p
          = some q.verCounter := by
        intro q
        rw [newPageVersion_trx, if_pos rfl]
        dsimp only
        rw [alGet_alSet, if_pos rfl]
      constructor
      · exact hupd _
      · unfold readPage
        rw [hread]
        dsimp only
        rw [hupd]
        rfl
    · rename_i hpop
      intro h
      cases hres : resolveAccess fuel p t s with
      | err e se => rw [hres] at h; cases h
      | ok iv sR =>
        rw [hres] at h
        simp only [Res.bind_ok] at h
        cases h
        obtain ⟨w, hwriter, hwt, hshape⟩ := resolveAccess_ok fuel p t s iv sR hres
        have hrsR : (getTrx sR t).readSet = (getTrx s t).readSet := by
          rw [hshape, getTrx_updT_self]
          dsimp only
          rw [getTrx_updT]
          split
          · rename_i htw
            exact absurd htw.symm hwt
          · rfl
        have hrs2 : alGet (getTrx sR t).readSet p = none := by
          rw [hrsR]
          exact alGet_none_of_alPop_none _ p hpop
        have hread : alGet (getTrx ((newPageVersion t p (some iv)
            (updV iv (fun ver => { ver with candidateTrxs := addOnce t ver.candidateTrxs })
              sR)).2) t).readSet p = none := by
          rw [newPageVersion_trx, if_pos rfl]
          dsimp only
          rw [getTrx_updV]
          exact hrs2
        have hupd : ∀ q, alGet (getTrx ((newPageVersion t p (some iv) q).2) t).updateSet p
            = some q.verCounter := by
          intro q
          rw [newPageVersion_trx, if_pos rfl]
          dsimp only
          rw [alGet_alSet, if_pos rfl]
        constructor
        · exact hupd _
        · unfold readPage
          rw [hread]
          dsimp only
          rw [hupd]
          rfl

/-- C10 witness: the read-own-update theorem instantiated on the first
update of the concrete trace used for claim C9. -/
theorem claim10_witness :
    alGet (getTrx c9After 1).updateSet 0 = some 1 ∧
    readPage 10 1 0 c9After = .ok 1 c9After :=
  claim10_read_own_update 30 10 1 0 c9State (by decide) (Or.inl (by decide))
    (.pair 1 0) c9After (by decide)

/-! ### Claims C8 and C4: the Aborted-entry rollback -/

/-- One `Aborted.enter` entry whose superseded version exists never
raises, keeps every transaction record and every `prevPageVersion` link,
touches only the superseded version and the entry's page, and performs
exactly the give-back and the latest-version rollback. -/
theorem abortedEnterStep_ok (t : Nat) (pv : Nat × Nat) (s : CoordState) (q : Nat)
    (hq : (getVer s pv.2).prevPageVersion = some q) :
    ∃ s', abortedEnterStep t pv s = .ok () s' ∧
      s'.trxs = s.trxs ∧
      (∀ x, (getVer s' x).prevPageVersion = (getVer s x).prevPageVersion) ∧
      (∀ pg, pg ≠ pv.1 → getPage s' pg = getPage s pg) ∧
      (∀ x, x ≠ q → getVer s' x = getVer s x) ∧
      ((getVer s q).supersederTrx = some t →
        (getVer s' q).supersederTrx = none ∧ t ∈ (getVer s' q).readerTrxs) ∧
      ((getVer s q).supersederTrx ≠ some t → getVer s' q = getVer s q) ∧
      ((getPage s pv.1).latestVersion = pv.2 → (getPage s' pv.1).latestVersion = q) := by
  unfold abortedEnterStep
  rw [hq]
  dsimp only
  by_cases hsup : (getVer s q).supersederTrx = some t
  · rw [if_pos hsup]
    simp only [getPage_updV]
    by_cases hlat : (getPage s pv.1).latestVersion = pv.2
    · rw [if_pos hlat]
      refine ⟨_, rfl, rfl, ?_, ?_, ?_, ?_, ?_, ?_⟩
      · intro x
        simp only [getVer_updP]
        rw [getVer_updV]
        split
        · rename_i hx; subst hx; rfl
        · rfl
      · intro pg hpg
        rw [getPage_updP, if_neg hpg]
        exact getPage_updV _ _ _ _
      · intro x hx
        simp only [getVer_updP]
        rw [getVer_updV, if_neg hx]
      · intro _
        simp only [getVer_updP]
        rw [getVer_updV, if_pos rfl]
        exact ⟨rfl, mem_addOnce.mpr (Or.inl rfl)⟩
      · intro hneg
        exact absurd hsup hneg
      · intro _
        rw [getPage_updP, if_pos rfl]
    · rw [if_neg hlat]
      refine ⟨_, rfl, rfl, ?_, ?_, ?_, ?_, ?_, ?_⟩
      · intro x
        rw [getVer_updV]
        split
        · rename_i hx; subst hx; rfl
        · rfl
      · intro pg _
        simp only [getPage_updV]
      · intro x hx
        rw [getVer_updV, if_neg hx]
      · intro _
        rw [getVer_updV, if_pos rfl]
        exact ⟨rfl, mem_addOnce.mpr (Or.inl rfl)⟩
      · intro hneg
        exact absurd hsup hneg
      · intro hl
        exact absurd hl hlat
  · rw [if_neg hsup]
    by_cases hlat : (getPage s pv.1).latestVersion = pv.2
    · rw [if_pos hlat]
      refine ⟨_, rfl, rfl, ?_, ?_, ?_, ?_, ?_, ?_⟩
      · intro x
        simp only [getVer_updP]
      · intro pg hpg
        rw [getPage_updP, if_neg hpg]
      · intro x _
        simp only [getVer_updP]
      · intro hpos
        exact absurd hpos hsup
      · intro _
        simp only [getVer_updP]
      · intro _
        rw [getPage_updP, if_pos rfl]
    · rw [if_neg hlat]
      refine ⟨_, rfl, rfl, ?_, ?_, ?_, ?_, ?_, ?_⟩
      · intro x; rfl
      · intro pg _; rfl
      · intro x _; rfl
      · intro hpos
        exact absurd hpos hsup
      · intro _; rfl
      · intro hl
        exact absurd hl hlat

/-- The whole `Aborted.enter` loop: with pairwise-distinct pages and
pairwise-distinct superseded versions it never raises, keeps every
transaction record and every previous-version link, and performs the
give-back and the latest-version rollback for every entry. -/
theorem abortedEnterFold (t : Nat) :
    ∀ (l : List (Nat × Nat)) (s : CoordState),
      (∀ pv ∈ l, (getVer s pv.2).prevPageVersion ≠ none) →
      (l.map Prod.fst).Nodup →
      l.Pairwise (fun a b =>
        (getVer s a.2).prevPageVersion ≠ (getVer s b.2).prevPageVersion) →
      ∃ s', foldResP (abortedEnterStep t) l s = .ok () s' ∧
        s'.trxs = s.trxs ∧
        (∀ x, (getVer s' x).prevPageVersion = (getVer s x).prevPageVersion) ∧
        (∀ pg, pg ∉ l.map Prod.fst → getPage s' pg = getPage s pg) ∧
        (∀ x, (∀ pv ∈ l, (getVer s pv.2).prevPageVersion ≠ some x) →
          getVer s' x = getVer s x) ∧
        (∀ pv ∈ l, ∀ q, (getVer s pv.2).prevPageVersion = some q →
          ((getVer s q).supersederTrx = some t →
            (getVer s' q).supersederTrx = none ∧ t ∈ (getVer s' q).readerTrxs) ∧
          ((getPage s pv.1).latestVersion = pv.2 →
            (getPage s' pv.1).latestVersion = q)) := by
  intro l
  induction l with
  | nil =>
    intro s _ _ _
    exact ⟨s, rfl, rfl, fun _ => rfl, fun _ _ => rfl, fun _ _ => rfl,
      fun pv hpv => absurd hpv (List.not_mem_nil pv)⟩
  | cons hd tl ih =>
    intro s hprev hnd hpw
    obtain ⟨q, hq⟩ : ∃ q, (getVer s hd.2).prevPageVersion = some q := by
      cases hqq : (getVer s hd.2).prevPageVersion with
      | none => exact absurd hqq (hprev hd (List.mem_cons_self hd tl))
      | some q => exact ⟨q, rfl⟩
    obtain ⟨s1, hstep, htrx1, hprevlink1, hpage1, hver1, hqpos, hqneg, hlat1⟩ :=
      abortedEnterStep_ok t hd s q hq
    simp only [List.map_cons, List.nodup_cons] at hnd
    have hpw' := List.pairwise_cons.mp hpw
    have hprevtl : ∀ pv ∈ tl, (getVer s1 pv.2).prevPageVersion ≠ none := by
      intro pv hpv
      rw [hprevlink1]
      exact hprev pv (List.mem_cons_of_mem hd hpv)
    have hpwtl : tl.Pairwise (fun a b =>
        (getVer s1 a.2).prevPageVersion ≠ (getVer s1 b.2).prevPageVersion) := by
      refine hpw'.2.imp ?_
      intro a b hab
      rw [hprevlink1, hprevlink1]
      exact hab
    obtain ⟨s2, hfold, htrx2, hprevlink2, hpage2, hver2, hconc2⟩ :=
      ih s1 hprevtl hnd.2 hpwtl
    have hs1q : ∀ b ∈ tl, (getVer s b.2).prevPageVersion ≠ some q := by
      intro b hb he
      exact (hpw'.1 b hb) (hq.trans he.symm)
    have hs2q : getVer s2 q = getVer s1 q := by
      refine hver2 q ?_
      intro pv hpv
      rw [hprevlink1]
      exact hs1q pv hpv
    refine ⟨s2, ?_, ?_, ?_, ?_, ?_, ?_⟩
    · unfold foldResP
      rw [hstep]
      simp only [Res.bind_ok]
      exact hfold
    · rw [htrx2, htrx1]
    · intro x
      rw [hprevlink2, hprevlink1]
    · intro pg hpg
      simp only [List.map_cons, List.mem_cons] at hpg
      push_neg at hpg
      rw [hpage2 pg hpg.2, hpage1 pg hpg.1]
    · intro x hx
      have hxq : x ≠ q := by
        intro he
        exact (hx hd (List.mem_cons_self hd tl)) (by rw [hq, he])
      rw [hver2 x ?_, hver1 x hxq]
      intro pv hpv
      rw [hprevlink1]
      exact hx pv (List.mem_cons_of_mem hd hpv)
    · intro pv hpv q' hq'
      rcases List.mem_cons.mp hpv with hh | htl
      · subst hh
        have hq'q : q' = q := by
          rw [hq] at hq'
          exact (Option.some_inj.mp hq').symm
        subst hq'q
        constructor
        · intro hsup
          have h1 := hqpos hsup
          rw [hs2q]
          exact h1
        · intro hl
          have h1 := hlat1 hl
          have hp : pv.1 ∉ tl.map Prod.fst := hnd.1
          rw [hpage2 pv.1 hp]
          exact h1
      · have hq'ne : q' ≠ q := by
          intro he
          exact hs1q pv htl (by rw [hq', he])
        have hverq' : getVer s1 q' = getVer s q' := hver1 q' hq'ne
        have hc := hconc2 pv htl q' (by rw [hprevlink1]; exact hq')
        have hp1 : pv.1 ≠ hd.1 := by
          intro he
          exact hnd.1 (he ▸ List.mem_map_of_mem Prod.fst htl)
        constructor
        · intro hsup
          refine (hc.1 ?_)
          rw [hverq']
          exact hsup
        · intro hl
          refine hc.2 ?_
          rw [hpage1 pv.1 hp1]
          exact hl

theorem getTrx_of_trxs_eq {s1 s2 : CoordState} (h : s1.trxs = s2.trxs) (x : Nat) :
    getTrx s1 x = getTrx s2 x := by
  unfold getTrx
  rw [h]

/-- Entering Aborted while a successor remains: the status is set, the
give-back/rollback loop of `Aborted.enter` runs to completion, and the
graph-removal probe of `Aborted.try2Transit` is a no-op. -/
theorem transit2_aborted_ok (fuel t : Nat) (s : CoordState)
    (hnext : (getTrx s t).nextTrxs ≠ [])
    (hprev : ∀ pv ∈ (getTrx s t).updateSet, (getVer s pv.2).prevPageVersion ≠ none)
    (hpages : ((getTrx s t).updateSet.map Prod.fst).Nodup)
    (hdprev : (getTrx s t).updateSet.Pairwise (fun a b =>
      (getVer s a.2).prevPageVersion ≠ (getVer s b.2).prevPageVersion)) :
    ∃ s', transit2 (fuel + 3) t .Aborted s = .ok () s' ∧
      statusOf s' t = .Aborted ∧
      (∀ pv ∈ (getTrx s t).updateSet, ∀ q,
        (getVer s pv.2).prevPageVersion = some q →
        ((getVer s q).supersederTrx = some t →
          (getVer s' q).supersederTrx = none ∧ t ∈ (getVer s' q).readerTrxs) ∧
        ((getPage s pv.1).latestVersion = pv.2 →
          (getPage s' pv.1).latestVersion = q)) := by
  have hA : getTrx (setStatusT t .Aborted s) t = { getTrx s t with status := .Aborted } := by
    unfold setStatusT
    exact getTrx_updT_self t _ s
  have hUS : (getTrx (setStatusT t .Aborted s) t).updateSet = (getTrx s t).updateSet := by
    rw [hA]
  have hstA : statusOf (setStatusT t .Aborted s) t = .Aborted := by
    unfold statusOf
    rw [hA]
  have hVA : ∀ x, getVer (setStatusT t .Aborted s) x = getVer s x := fun x => rfl
  have hPA : ∀ x, getPage (setStatusT t .Aborted s) x = getPage s x := fun x => rfl
  have hprevA : ∀ pv ∈ (getTrx (setStatusT t .Aborted s) t).updateSet,
      (getVer (setStatusT t .Aborted s) pv.2).prevPageVersion ≠ none := by
    rw [hUS]
    intro pv hpv
    rw [hVA]
    exact hprev pv hpv
  have hpagesA : ((getTrx (setStatusT t .Aborted s) t).updateSet.map Prod.fst).Nodup := by
    rw [hUS]
    exact hpages
  have hdprevA : (getTrx (setStatusT t .Aborted s) t).updateSet.Pairwise (fun a b =>
      (getVer (setStatusT t .Aborted s) a.2).prevPageVersion
        ≠ (getVer (setStatusT t .Aborted s) b.2).prevPageVersion) := by
    rw [hUS]
    refine hdprev.imp ?_
    intro a b hab
    rw [hVA, hVA]
    exact hab
  obtain ⟨s1, hfold, htrx1, hprevlink1, hpage1, hver1, hconc1⟩ :=
    abortedEnterFold t (getTrx (setStatusT t .Aborted s) t).updateSet
      (setStatusT t .Aborted s) hprevA hpagesA hdprevA
  have htx1 : ∀ x, getTrx s1 x = getTrx (setStatusT t .Aborted s) x :=
    getTrx_of_trxs_eq htrx1
  have hst1 : statusOf s1 t = .Aborted := by
    unfold statusOf
    rw [htx1, hA]
  have hnx1 : (getTrx s1 t).nextTrxs ≠ [] := by
    rw [htx1, hA]
    exact hnext
  refine ⟨s1, ?_, hst1, ?_⟩
  · unfold transit2
    unfold enterF
    rw [hstA]
    dsimp only
    rw [hfold]
    simp only [Res.bind_ok]
    unfold try2TransitF
    rw [hst1]
    dsimp only
    rw [if_neg hnx1]
  · intro pv hpv q hq
    have hpv' : pv ∈ (getTrx (setStatusT t .Aborted s) t).updateSet := by
      rw [hUS]
      exact hpv
    have hq' : (getVer (setStatusT t .Aborted s) pv.2).prevPageVersion = some q := by
      rw [hVA]
      exact hq
    have hc := hconc1 pv hpv' q hq'
    constructor
    · intro hsup
      refine hc.1 ?_
      rw [hVA]
      exact hsup
    · intro hl
      refine hc.2 ?_
      rw [hPA]
      exact hl

/-- C8: when a transaction `t` enters Aborted (here with a successor
still present, so the removal probe of `try2Transit` does not fire yet),
every update-set entry `(page, V')` with superseded version
`Q = V'.prevPageVersion` is given back: if `Q.supersederTrx` is `t` it is
reset to null and `t` is re-added to `Q.readerTrxs`, and if the page's
`latestVersion` is `V'` it is rolled back to `Q` — the latest version the
page had before `t` went public, hence the round trip. -/
theorem claim8_aborted_rollback (fuel t : Nat) (s : CoordState)
    (hnext : (getTrx s t).nextTrxs ≠ [])
    (hprev : ∀ pv ∈ (getTrx s t).updateSet, (getVer s pv.2).prevPageVersion ≠ none)
    (hpages : ((getTrx s t).updateSet.map Prod.fst).Nodup)
    (hdprev : (getTrx s t).updateSet.Pairwise (fun a b =>
      (getVer s a.2).prevPageVersion ≠ (getVer s b.2).prevPageVersion)) :
    ∃ s', transit2 (fuel + 3) t .Aborted s = .ok () s' ∧
      statusOf s' t = .Aborted ∧
      (∀ pv ∈ (getTrx s t).updateSet, ∀ q,
        (getVer s pv.2).prevPageVersion = some q →
        ((getVer s q).supersederTrx = some t →
          (getVer s' q).supersederTrx = none ∧ t ∈ (getVer s' q).readerTrxs) ∧
        ((getPage s pv.1).latestVersion = pv.2 →
          (getPage s' pv.1).latestVersion = q)) :=
  transit2_aborted_ok fuel t s hnext hprev hpages hdprev

/-- A Ready transaction 1 that published version 2 over the root version
0 of page 0 (supersederTrx of the root is 1, latest is 2) and still has a
successor. -/
def c8State : CoordState :=
  { trxs := [(1, { transactionId := none, status := .Ready, readSet := [],
                   updateSet := [(0, 2)], prevTrxs := [], nextTrxs := [5] })],
    pages := [(0, { ordinal := 0, versionCounter := 3, latestVersion := 2 })],
    versions := [(2, { page := some 0, versionNumber := 1, writerTrx := some 1,
                       readerTrxs := [], prevPageVersion := some 0,
                       candidateTrxs := [], supersederTrx := none }),
                 (0, { page := some 0, versionNumber := 0, writerTrx := some 9,
                       readerTrxs := [], prevPageVersion := none,
                       candidateTrxs := [], supersederTrx := some 1 })],
    trxCounter := 2, verCounter := 3 }

/-- C8 witness: the rollback theorem instantiated on `c8State` — the
superseded root gets its superseder cleared and its reader back, and the
page's latest version is rolled back to the root. -/
theorem claim8_witness :
    ∃ s', transit2 (0 + 3) 1 .Aborted c8State = .ok () s' ∧
      statusOf s' 1 = .Aborted ∧
      (getVer s' 0).supersederTrx = none ∧ 1 ∈ (getVer s' 0).readerTrxs ∧
      (getPage s' 0).latestVersion = 0 := by
  obtain ⟨s', h1, h2, h3⟩ :=
    claim8_aborted_rollback 0 1 c8State (by decide) (by decide) (by decide) (by decide)
  have hc := h3 (0, 2) (by decide) 0 (by decide)
  have hc1 := hc.1 (by decide)
  have hc2 := hc.2 (by decide)
  exact ⟨s', h1, h2, hc1.1, hc1.2, hc2⟩

/-! ### Claim C4 -/

theorem purgeStep_noop (t : Nat) (pv : Nat × Nat) (s : CoordState)
    (h : (getVer s pv.2).writerTrx ≠ none) : purgeStep t pv s = .ok () s := by
  unfold purgeStep
  rw [if_neg h]

theorem foldResP_noop (f : Nat × Nat → CoordState → Res Unit) :
    ∀ (l : List (Nat × Nat)) (s : CoordState),
      (∀ x ∈ l, f x s = .ok () s) → foldResP f l s = .ok () s := by
  intro l
  induction l with
  | nil => intro s _; rfl
  | cons x rest ih =>
    intro s h
    unfold foldResP
    rw [h x (List.mem_cons_self x rest)]
    simp only [Res.bind_ok]
    exact ih s (fun y hy => h y (List.mem_cons_of_mem x hy))

theorem privateEnd_noop (t : Nat) (s : CoordState)
    (h : ∀ pv ∈ (getTrx s t).readSet, (getVer s pv.2).writerTrx ≠ none) :
    privateEnd t s = .ok () s := by
  unfold privateEnd
  exact foldResP_noop _ _ s (fun pv hpv => purgeStep_noop t pv s (h pv hpv))

/-- The conflict scan of `Running.end` bails out (without touching the
state) as soon as some superseded version has a public superseder,
provided no reader search runs out of fuel on the way. -/
theorem runningEndScan_bails (fl t : Nat) (s : CoordState) :
    ∀ l, (∀ v ∈ l, ∀ q, (getVer s v).prevPageVersion = some q →
            readersSucceedScan s fl t (getVer s q).readerTrxs ≠ none) →
      (∃ v ∈ l, ∃ q, (getVer s v).prevPageVersion = some q ∧
        (getVer s q).supersederTrx ≠ none) →
      runningEndScan fl t s l = .ok true s := by
  intro l
  induction l with
  | nil =>
    intro _ hex
    obtain ⟨v, hv, _⟩ := hex
    exact absurd hv (List.not_mem_nil v)
  | cons v rest ih =>
    intro hscan hex
    unfold runningEndScan
    cases hpv : (getVer s v).prevPageVersion with
    | none =>
      dsimp only
      refine ih ?_ ?_
      · intro u hu
        exact hscan u (List.mem_cons_of_mem v hu)
      · obtain ⟨u, hu, q, hq, hsup⟩ := hex
        rcases List.mem_cons.mp hu with he | hu2
        · subst he
          rw [hpv] at hq
          cases hq
        · exact ⟨u, hu2, q, hq, hsup⟩
    | some q =>
      dsimp only
      cases hsup : (getVer s q).supersederTrx with
      | some u =>
        rfl
      | none =>
        dsimp only
        cases hrss : readersSucceedScan s fl t (getVer s q).readerTrxs with
        | none =>
          exact absurd hrss (hscan v (List.mem_cons_self v rest) q hpv)
        | some b =>
          cases b with
          | true => rfl
          | false =>
            dsimp only
            refine ih ?_ ?_
            · intro u hu
              exact hscan u (List.mem_cons_of_mem v hu)
            · obtain ⟨u, hu, q2, hq2, hsup2⟩ := hex
              rcases List.mem_cons.mp hu with he | hu2
              · subst he
                rw [hpv] at hq2
                cases hq2
                exact absurd hsup hsup2
              · exact ⟨u, hu2, q2, hq2, hsup2⟩

/-- C4: if a Running transaction `t` calls `end()` while some version
superseded by an entry of its update set already has a non-null
`supersederTrx` (another candidate has gone public first), the conflict
scan of `Running.end` bails out, `t` is failed, `Failed.end` carries it
into Aborted, and the `end()` call returns Aborted. -/
theorem claim4_end_superseded_aborts (fuel t : Nat) (s : CoordState)
    (hrun : statusOf s t = .Running)
    (hreads : ∀ pv ∈ (getTrx s t).readSet, (getVer s pv.2).writerTrx ≠ none)
    (hsup : ∃ v ∈ (getTrx s t).updateSet.map (fun e => e.2), ∃ q,
       (getVer s v).prevPageVersion = some q ∧ (getVer s q).supersederTrx ≠ none)
    (hscan : ∀ v ∈ (getTrx s t).updateSet.map (fun e => e.2), ∀ q,
       (getVer s v).prevPageVersion = some q →
       readersSucceedScan s (fuel + 5) t (getVer s q).readerTrxs ≠ none)
    (hprev : ∀ pv ∈ (getTrx s t).updateSet, (getVer s pv.2).prevPageVersion ≠ none)
    (hpages : ((getTrx s t).updateSet.map Prod.fst).Nodup)
    (hdprev : (getTrx s t).updateSet.Pairwise (fun a b =>
      (getVer s a.2).prevPageVersion ≠ (getVer s b.2).prevPageVersion))
    (hnext : (getTrx s t).nextTrxs ≠ []) :
    ∃ s', endDispatch (fuel + 6) t s = .ok .Aborted s' ∧ statusOf s' t = .Aborted := by
  have hF : getTrx (setStatusT t .Failed s) t = { getTrx s t with status := .Failed } := by
    unfold setStatusT
    exact getTrx_updT_self t _ s
  have hstF : statusOf (setStatusT t .Failed s) t = .Failed := by
    unfold statusOf
    rw [hF]
  have hreadsF : ∀ pv ∈ (getTrx (setStatusT t .Failed s) t).readSet,
      (getVer (setStatusT t .Failed s) pv.2).writerTrx ≠ none := by
    rw [hF]
    intro pv hpv
    exact hreads pv hpv
  have hprevF : ∀ pv ∈ (getTrx (setStatusT t .Failed s) t).updateSet,
      (getVer (setStatusT t .Failed s) pv.2).prevPageVersion ≠ none := by
    rw [hF]
    intro pv hpv
    exact hprev pv hpv
  have hpagesF : ((getTrx (setStatusT t .Failed s) t).updateSet.map Prod.fst).Nodup := by
    rw [hF]
    exact hpages
  have hdprevF : (getTrx (setStatusT t .Failed s) t).updateSet.Pairwise (fun a b =>
      (getVer (setStatusT t .Failed s) a.2).prevPageVersion
        ≠ (getVer (setStatusT t .Failed s) b.2).prevPageVersion) := by
    rw [hF]
    exact hdprev
  have hnextF : (getTrx (setStatusT t .Failed s) t).nextTrxs ≠ [] := by
    rw [hF]
    exact hnext
  obtain ⟨s', habort, hst', _⟩ :=
    transit2_aborted_ok (fuel + 1) t (setStatusT t .Failed s)
      hnextF hprevF hpagesF hdprevF
  have habort' : transit2 (fuel + 4) t .Aborted (setStatusT t .Failed s) = .ok () s' :=
    habort
  refine ⟨s', ?_, hst'⟩
  unfold endDispatch
  rw [hrun]
  unfold runningEnd
  rw [privateEnd_noop t s hreads]
  simp only [Res.bind_ok]
  rw [runningEndScan_bails (fuel + 5) t s _ hscan hsup]
  simp only [Res.bind_ok]
  split
  · unfold failS
    rw [hrun]
    unfold transit2
    unfold enterF
    rw [hstF]
    simp only [Res.bind_ok]
    unfold failedEnd
    rw [privateEnd_noop t (setStatusT t .Failed s) hreadsF]
    simp only [Res.bind_ok]
    rw [habort']
    simp only [Res.bind_ok]
    rw [hst']
  · rename_i hfalse
    exact absurd trivial hfalse

/-- A crafted Running transaction 1 whose update-set version 2 supersedes
the root version 0 of page 0 while another transaction (3) already
superseded that root publicly. -/
def c4State : CoordState :=
  { trxs := [(1, { transactionId := none, status := .Running, readSet := [],
                   updateSet := [(0, 2)], prevTrxs := [], nextTrxs := [7] }),
             (3, { transactionId := none, status := .Ready, readSet := [],
                   updateSet := [], prevTrxs := [], nextTrxs := [] })],
    pages := [(0, { ordinal := 0, versionCounter := 3, latestVersion := 5 })],
    versions := [(2, { page := some 0, versionNumber := 1, writerTrx := some 1,
                       readerTrxs := [], prevPageVersion := some 0,
                       candidateTrxs := [], supersederTrx := none }),
                 (0, { page := some 0, versionNumber := 0, writerTrx := some 9,
                       readerTrxs := [1], prevPageVersion := none,
                       candidateTrxs := [1], supersederTrx := some 3 })],
    trxCounter := 4, verCounter := 6 }

/-- C4 witness: the theorem instantiated on `c4State`: the `end()` of the
Running transaction 1 returns Aborted. -/
theorem claim4_witness :
    ∃ s', endDispatch (4 + 6) 1 c4State = .ok .Aborted s' ∧
      statusOf s' 1 = .Aborted := by
  refine claim4_end_superseded_aborts 4 1 c4State (by decide) (by decide)
    ⟨2, by decide, 0, by decide, by decide⟩ ?_ (by decide) (by decide) (by decide)
    (by decide)
  intro v hv q hq
  have hl : (getTrx c4State 1).updateSet.map (fun e => e.2) = [2] := by decide
  rw [hl] at hv
  have hv2 : v = 2 := List.mem_singleton.mp hv
  subst hv2
  have h0 : (getVer c4State 2).prevPageVersion = some 0 := by decide
  rw [h0] at hq
  cases hq
  decide
